import Mathlib

/-!
Verification of the DXF document indexing and navigation engine of
`src/ezdxf/addons/browser/data.py`: `HandleIndex`, `LineIndex`,
`EntityHistory` and `SearchIndex` over a section mapping of tagged records.

Modelling conventions:
* A DXF tag is a `(code, value)` pair.  Python object identity (`is`) on tag
  and record objects is modelled by explicit identity numbers `tid` / `rid`
  (the address of the object); two objects are `is`-identical iff their
  identity numbers agree.  Values are strings or integers; floating point
  values are out of scope of the claims.
* A `SectionDict` is an insertion-ordered mapping from section name to the
  ordered list of its records; it is modelled as an association list.
* Python `dict` with string keys is modelled by an insertion-ordered
  association list with `dictUpdate` (assignment: an existing key keeps its
  position and gets the new value, a fresh key is appended) and `dictGet`.
* Machine integers are `Nat`/`Int`; Python line arithmetic cannot overflow.
* A Python statement that raises an uncaught exception is modelled by an
  `Option`-valued result being `none` where noted.
-/

/-- A DXF tag value: a string or an integer.  (Floating point and vertex
values of the real library are outside the scope of the verified claims;
`SearchIndex._match` never inspects a non-string value unless number matching
is on, in which case only the textual form matters.) -/
inductive TagValue where
  | str (s : String)
  | int (n : Int)
deriving DecidableEq, Repr

/-- One DXF tag: group code and value, plus the object identity `tid`
modelling the Python object address (used for the `is` comparison in
`HandleIndex.get_handle`). -/
structure DXFTag where
  tid : Nat
  code : Int
  val : TagValue
deriving DecidableEq, Repr

/-- One record (the `Tags` class): an ordered list of tags plus the record
object identity `rid` modelling `id(entity)`. -/
structure Tags where
  rid : Nat
  tags : List DXFTag
deriving DecidableEq, Repr

/-- A section mapping: insertion-ordered dict from section name to the list
of records of that section (`SectionDict`). -/
abbrev SectionDict : Type := List (String × List Tags)

/-- Modelled from the spec: the handle extraction operation of the external
tag class (`ezdxf.lldxf.tags.Tags.get_handle`, not under `src/`): it returns
the handle string of the record, taken from the first tag bearing the
reserved handle group code 5, and fails (`ValueError`, here `none`) when no
such tag is present; a handle is a string value. -/
def Tags.get_handle (t : Tags) : Option String :=
  match t.tags.find? (fun tag => tag.code == 5) with
  | some tag =>
    match tag.val with
    | .str s => some s
    | .int _ => none
  | none => none

/-- Modelled from the spec: `tag_type` of `ezdxf.lldxf.types` (not under
`src/`) maps a group code to the type of its value; only the
string/non-string distinction is observable in `SearchIndex._match`.
String-valued group codes per the DXF reference: 0-9, 100-109, 300-369,
390-399, 410-419, 430-439, 470-481 and 999-1009; every other code carries a
numeric value. -/
def tagTypeIsStr (code : Int) : Bool :=
  decide ((0 ≤ code ∧ code ≤ 9) ∨ (100 ≤ code ∧ code ≤ 109) ∨
    (300 ≤ code ∧ code ≤ 369) ∨ (390 ≤ code ∧ code ≤ 399) ∨
    (410 ≤ code ∧ code ≤ 419) ∨ (430 ≤ code ∧ code ≤ 439) ∨
    (470 ≤ code ∧ code ≤ 481) ∨ (999 ≤ code ∧ code ≤ 1009))

/-- Uppercase hexadecimal digit for `d < 16`, as produced by Python
format specifier `X`. -/
def hexDigit (d : Nat) : Char :=
  if d < 10 then Char.ofNat (48 + d) else Char.ofNat (55 + d)

/-- Little-endian base-16 digit list, computed with explicit fuel so that it
evaluates by structural recursion; `hexRep` below always supplies enough
fuel. -/
def hexDigitsRev : Nat → Nat → List Nat
  | 0, _ => []
  | fuel + 1, n => if n = 0 then [] else n % 16 :: hexDigitsRev fuel (n / 16)

/-- Little-endian base-16 digits of `n` (equal to `Nat.digits 16 n`). -/
def hexRep (n : Nat) : List Nat := hexDigitsRev n n

/-- Uppercase hexadecimal rendering of a natural number, Python
`f"{n:X}"`. -/
def hexUpper (n : Nat) : String :=
  if n = 0 then "0" else ⟨((hexRep n).map hexDigit).reverse⟩

/-- Python string `.upper()` (ASCII case folding, characterwise). -/
def strUpper (s : String) : String := ⟨s.data.map Char.toUpper⟩

/-! ### Ordered dictionaries (Python `dict`) -/

/-- Assignment `d[k] = v` on an insertion-ordered dict: an existing key keeps
its position and receives the new value, a fresh key is appended at the
end. -/
def dictUpdate {κ β : Type} [DecidableEq κ] (k : κ) (v : β) :
    List (κ × β) → List (κ × β)
  | [] => [(k, v)]
  | (k', v') :: rest =>
    if k' = k then (k, v) :: rest else (k', v') :: dictUpdate k v rest

/-- Lookup `d.get(k)`. -/
def dictGet {κ β : Type} [DecidableEq κ] (k : κ) : List (κ × β) → Option β
  | [] => none
  | (k', v) :: rest => if k' = k then some v else dictGet k rest

/-! ### HandleIndex -/

/-- `IndexEntry`: one record with its assigned handle and computed start line
number.  The `prev`/`next` pointers of the Python class are represented by
adjacency in the creation-order list `HandleIndex.entries`: the pointers are
set exactly once, linking each entry to the entry created immediately before
it, so entry `i` has `prev` = entry `i-1` and `next` = entry `i+1`. -/
structure IndexEntry where
  tags : Tags
  handle : String
  line : Nat
deriving DecidableEq, Repr

/-- Inner loop of `HandleIndex._build` over the records of one section:
threads the running start line number and the dummy-handle counter, and emits
the created entries in order.  Per record: extract the handle or assign the
synthetic `*<hex counter>` handle on failure, uppercase it, record the
current start line, then advance the line by 2 lines per tag. -/
def handleBuildRecs : Nat → Nat → List Tags → List IndexEntry × Nat × Nat
  | line, dummy, [] => ([], line, dummy)
  | line, dummy, t :: rest =>
    let (h, dummy') :=
      match t.get_handle with
      | some h => (h, dummy)
      | none => ("*" ++ hexUpper dummy, dummy + 1)
    let (es, line', dummy'') :=
      handleBuildRecs (line + t.tags.length * 2) dummy' rest
    (⟨t, strUpper h, line⟩ :: es, line', dummy'')

/-- Outer loop of `HandleIndex._build` over the sections: after each section
the start line number advances by 2 for the missing ENDSEC tag. -/
def handleBuildSections : Nat → Nat → SectionDict → List IndexEntry × Nat × Nat
  | line, dummy, [] => ([], line, dummy)
  | line, dummy, (_, recs) :: rest =>
    let (es, line', dummy') := handleBuildRecs line dummy recs
    let (es2, line'', dummy'') := handleBuildSections (line' + 2) dummy' rest
    (es ++ es2, line'', dummy'')

/-- The creation-order entry list of `HandleIndex._build` (the doubly linked
list of `IndexEntry` objects). -/
def handleEntries (sections : SectionDict) : List IndexEntry :=
  (handleBuildSections 1 1 sections).1

/-- The final value of `start_line_number` after `HandleIndex._build`. -/
def handleFinalLine (sections : SectionDict) : Nat :=
  (handleBuildSections 1 1 sections).2.1

/-- `HandleIndex`: `entries` is the creation-order list of entries (the
linked list), `index` the insertion-ordered dict `handle -> entry`, with the
entry represented by its position in `entries` so that the `prev`/`next`
pointers of the stored object are recoverable as positions `i-1`/`i+1`. -/
structure HandleIndex where
  entries : List IndexEntry
  index : List (String × Nat)
  max_line_number : Int

/-- `HandleIndex.__init__`/`_build`: create the entries, enter each into the
dict under its assigned handle (`entity_index[handle] = new_entity`), and
record `start_line_number - 3` as the maximal line number. -/
def HandleIndex.build (sections : SectionDict) : HandleIndex :=
  let es := handleEntries sections
  { entries := es
    index := (es.enum.map (fun p => (p.2.handle, p.1))).foldl
      (fun d p => dictUpdate p.1 p.2 d) []
    max_line_number := (handleFinalLine sections : Int) - 3 }

/-- `handle.upper() in self._index`. -/
def HandleIndex.contains (hi : HandleIndex) (handle : String) : Bool :=
  (dictGet (strUpper handle) hi.index).isSome

/-- `self._index.values()` in dict order. -/
def HandleIndex.values (hi : HandleIndex) : List IndexEntry :=
  hi.index.filterMap (fun p => hi.entries[p.2]?)

/-- `self._index.items()` in dict order. -/
def HandleIndex.items (hi : HandleIndex) : List (String × IndexEntry) :=
  hi.index.filterMap (fun p => (hi.entries[p.2]?).map (fun e => (p.1, e)))

/-- First-tag object identity of a record (`entity[0] is ...` comparisons). -/
def firstTid (t : Tags) : Option Nat := t.tags.head?.map (·.tid)

/-- `HandleIndex.get_handle`: `None` for an empty record; the record's own
(raw, not uppercased) handle when extraction succeeds; otherwise a linear
scan over the dict items comparing the first tag by object identity. -/
def HandleIndex.get_handle (hi : HandleIndex) (entity : Tags) : Option String :=
  if entity.tags.length = 0 then none
  else
    match entity.get_handle with
    | some h => some h
    | none =>
      (hi.items.find? (fun p =>
        decide (0 < p.2.tags.tags.length) &&
          decide (firstTid p.2.tags = firstTid entity))).map (·.1)

/-- `HandleIndex.next_entity`.  The result `none` models the uncaught
`AttributeError` raised when the resolved handle is not a key of the dict
(the source looks the raw handle up without uppercasing and dereferences the
result unconditionally: `self._index.get(handle).next`). -/
def HandleIndex.next_entity (hi : HandleIndex) (entity : Tags) : Option Tags :=
  match hi.get_handle entity with
  | none => some entity
  | some h =>
    match dictGet h hi.index with
    | none => none
    | some pos =>
      match hi.entries[pos + 1]? with
      | some nxt => some nxt.tags
      | none => some entity

/-- `HandleIndex.previous_entity`, symmetric to `next_entity`. -/
def HandleIndex.previous_entity (hi : HandleIndex) (entity : Tags) : Option Tags :=
  match hi.get_handle entity with
  | none => some entity
  | some h =>
    match dictGet h hi.index with
    | none => none
    | some pos =>
      if pos = 0 then some entity
      else
        match hi.entries[pos - 1]? with
        | some prv => some prv.tags
        | none => some entity

/-- Loop body of `HandleIndex.get_entity_at_line`: runs over the dict values
keeping the tags of the previous entry; returns that accumulator at the
first entry whose start line exceeds the queried number. -/
def hScan (acc : Option Tags) : List IndexEntry → Int → Option Tags
  | [], _ => acc
  | e :: rest, n => if (e.line : Int) > n then acc else hScan (some e.tags) rest n

/-- `HandleIndex.get_entity_at_line`. -/
def HandleIndex.get_entity_at_line (hi : HandleIndex) (number : Int) : Option Tags :=
  hScan none hi.values number

/-! ### LineIndex -/

/-- Shared accumulation of both `LineIndex.build_entity_index` and
`LineIndex.build_line_index` over the records of one section: each record is
paired with the running start line number, which then advances by 2 lines
per tag. -/
def lineRecs : Nat → List Tags → List (Nat × Tags) × Nat
  | line, [] => ([], line)
  | line, t :: rest =>
    let (l, line') := lineRecs (line + t.tags.length * 2) rest
    ((line, t) :: l, line')

/-- Section-level accumulation of the `(start line, record)` pairs, adding 2
lines after each section for the missing ENDSEC tag.  Both build loops of
`LineIndex` produce exactly this sequence (in this order) before the line
index is additionally sorted. -/
def lineSections : Nat → SectionDict → List (Nat × Tags) × Nat
  | line, [] => ([], line)
  | line, (_, recs) :: rest =>
    let (l1, line') := lineRecs line recs
    let (l2, line'') := lineSections (line' + 2) rest
    (l1 ++ l2, line'')

/-- The `(start line, record)` pairs in file order, start line starting
at 1. -/
def linePairs (sections : SectionDict) : List (Nat × Tags) :=
  (lineSections 1 sections).1

/-- Stable insertion by ascending start line: the new pair goes after every
pair with a smaller-or-equal start line. -/
def insertByLine (x : Nat × Tags) : List (Nat × Tags) → List (Nat × Tags)
  | [] => [x]
  | y :: ys => if y.1 ≤ x.1 then y :: insertByLine x ys else x :: y :: ys

/-- `index.sort()` of `build_line_index`, modelled as a stable sort by start
line.  The Python sort compares `(int, Tags)` tuples and is stable; ties in
the start line only arise from records with zero tags, whose `Tags` list
value `[]` never compares greater than any list, so Python also keeps the
original order of tied pairs — a stable sort on the start line alone is an
exact model. -/
def sortByLine (l : List (Nat × Tags)) : List (Nat × Tags) :=
  l.foldl (fun acc x => insertByLine x acc) []

/-- `LineIndex.build_line_index`: the file-order pairs, sorted by line
number. -/
def LineIndex.build_line_index (sections : SectionDict) : List (Nat × Tags) :=
  sortByLine (linePairs sections)

/-- `LineIndex.build_entity_index`: dict keyed by `id(entity)` holding
`(start line, entity)`, assigned in file order (`index[id(entity)] =
line_number, entity`); the traversal and line accounting are the same
accumulation as in `build_line_index`. -/
def LineIndex.build_entity_index (sections : SectionDict) :
    List (Nat × (Nat × Tags)) :=
  ((linePairs sections).map (fun p => (p.2.rid, p))).foldl
    (fun d p => dictUpdate p.1 p.2 d) []

/-- `LineIndex`: entity index, sorted line index and maximal line number. -/
structure LineIndex where
  entity_index : List (Nat × (Nat × Tags))
  line_index : List (Nat × Tags)
  max_line_number : Int

/-- `LineIndex.__init__`: build both indices; the maximal line number is 1
for an empty index, else `last start + 2 * (tags of last record) - 1`. -/
def LineIndex.build (sections : SectionDict) : LineIndex :=
  let idx := LineIndex.build_line_index sections
  { entity_index := LineIndex.build_entity_index sections
    line_index := idx
    max_line_number :=
      match idx.getLast? with
      | none => 1
      | some (last, e) => (last : Int) + (e.tags.length : Int) * 2 - 1 }

/-- `LineIndex.get_start_line_for_entity`: O(1) lookup by object identity,
0 when the record is not indexed. -/
def LineIndex.get_start_line_for_entity (li : LineIndex) (entity : Tags) : Nat :=
  match dictGet entity.rid li.entity_index with
  | some p => p.1
  | none => 0

/-- Loop of `LineIndex.get_entity_at_line`: the accumulator is the record of
the previously seen pair, returned at the first pair whose start line
exceeds the queried number. -/
def lScan (acc : Tags) : List (Nat × Tags) → Int → Tags
  | [], _ => acc
  | (start, e) :: rest, n => if (start : Int) > n then acc else lScan e rest n

/-- `LineIndex.get_entity_at_line`: `None` on an empty index; otherwise the
scan starts with the first record as accumulator, so a number below the
first start line yields the first record. -/
def LineIndex.get_entity_at_line (li : LineIndex) (number : Int) : Option Tags :=
  match li.line_index with
  | [] => none
  | (_, e0) :: _ => some (lScan e0 li.line_index number)

/-! ### EntityHistory -/

/-- `EntityHistory` state: the history list, the cursor `index` and the
time-travel (redo) buffer.  The Python `_index` is an `int` that is
non-negative in every state (it only ever receives 0, a list length, or an
index checked non-negative), so it is modelled as `Nat`. -/
structure EntityHistory where
  history : List Tags
  index : Nat
  time_travel : List Tags
deriving DecidableEq, Repr

/-- `EntityHistory()` constructor. -/
def EntityHistory.init : EntityHistory := ⟨[], 0, []⟩

/-- `EntityHistory.append`: a non-empty time-travel buffer is first flushed
onto the history; then the append is skipped when the record is
`is`-identical (same `rid`) to the last history entry; otherwise the cursor
is set to the old length and the record appended. -/
def EntityHistory.append (h0 : EntityHistory) (entity : Tags) : EntityHistory :=
  let h := if h0.time_travel = [] then h0
    else { h0 with history := h0.history ++ h0.time_travel,
                   time_travel := ([] : List Tags) }
  if h.history ≠ [] ∧ (h.history.getLast?).map Tags.rid = some entity.rid then h
  else { h with index := h.history.length, history := h.history ++ [entity] }

/-- `EntityHistory._time_wrap`: set the cursor, read the record at the new
cursor, push it onto the time-travel buffer and return it.  The `none`
branch models the `IndexError` of `self._history[index]` and is unreachable
from `back`/`forward`, whose guards keep the index in range. -/
def EntityHistory.time_wrap (h : EntityHistory) (i : Nat) :
    Option Tags × EntityHistory :=
  match h.history[i]? with
  | none => (none, { h with index := i })
  | some e => (some e, { h with index := i,
                                time_travel := h.time_travel ++ [e] })

/-- `EntityHistory.back`: `None` on empty history; time-wrap to `index - 1`
when that is non-negative (Python `index = self._index - 1; if index >= 0`),
else return the first record without changing any state. -/
def EntityHistory.back (h : EntityHistory) : Option Tags × EntityHistory :=
  if h.history = [] then (none, h)
  else if 1 ≤ h.index then h.time_wrap (h.index - 1)
  else (h.history.head?, h)

/-- `EntityHistory.forward`: `None` on empty history; time-wrap to
`index + 1` when that is still inside the history, else return the last
record without changing any state. -/
def EntityHistory.forward (h : EntityHistory) : Option Tags × EntityHistory :=
  if h.history = [] then (none, h)
  else if h.index + 1 < h.history.length then h.time_wrap (h.index + 1)
  else (h.history.getLast?, h)

/-- `EntityHistory.content`. -/
def EntityHistory.content (h : EntityHistory) : List Tags := h.history

/-! ### SearchIndex -/

/-- Python list indexing `l[i]` with an `int` index: negative indices count
from the end; an index out of range is an `IndexError`, modelled as
`none`. -/
def pyIdx {α : Type} (l : List α) (i : Int) : Option α :=
  let n : Int := l.length
  let j := if i < 0 then n + i else i
  if 0 ≤ j ∧ j < n then l[j.toNat]? else none

/-- Helper for Python `str.split()`: split on runs of whitespace, dropping
empty parts; `cur` accumulates the current word reversed. -/
def splitWsAux : List Char → List Char → List String
  | [], cur => if cur = [] then [] else [⟨cur.reverse⟩]
  | c :: cs, cur =>
    if c.isWhitespace then
      if cur = [] then splitWsAux cs []
      else ⟨cur.reverse⟩ :: splitWsAux cs []
    else splitWsAux cs (c :: cur)

/-- Python `value.split()`. -/
def splitWs (s : String) : List String := splitWsAux s.data []

/-- Whether `needle` occurs at the head of `hay`. -/
def startsWithL : List Char → List Char → Bool
  | [], _ => true
  | _ :: _, [] => false
  | a :: as, b :: bs => a = b && startsWithL as bs

/-- Whether `needle` occurs anywhere in `hay` (Python `needle in hay` on
strings; the empty needle always matches). -/
def containsSub (needle : List Char) : List Char → Bool
  | [] => startsWithL needle []
  | c :: cs => startsWithL needle (c :: cs) || containsSub needle cs

/-- Python `term in value` on strings. -/
def strContains (value term : String) : Bool := containsSub term.data value.data

/-- Python `str(value)` for a tag value. -/
def TagValue.toText : TagValue → String
  | .str s => s
  | .int n => toString n

/-- Python `value.lower()` (ASCII case folding, characterwise). -/
def strLower (s : String) : String := ⟨s.data.map Char.toLower⟩

/-- `SearchIndex` state: snapshot of the record list, the
(record index, tag index) cursor, the stored search term with its lowercase
cache, the end-of-index flag and the matching configuration.  The tag index
is an `int` in Python and can become `-1` (backward reset on an empty last
record), so it is modelled as `Int`; the record index only ever receives
values checked to be in range and is a `Nat`. -/
structure SearchIndex where
  entities : List Tags
  current_entity_index : Nat
  current_tag_index : Int
  search_term : Option String
  search_term_lower : Option String
  end_of_index : Bool
  case_insensitive : Bool
  whole_words : Bool
  numbers : Bool
  regex : Bool
deriving Repr

/-- `SearchIndex.__init__` over a record list: cursor at (0, 0), end of
index iff the list is empty, case-insensitive matching on, all other modes
off. -/
def SearchIndex.init (entities : List Tags) : SearchIndex :=
  { entities := entities
    current_entity_index := 0
    current_tag_index := 0
    search_term := none
    search_term_lower := none
    end_of_index := entities.isEmpty
    case_insensitive := true
    whole_words := false
    numbers := false
    regex := false }

/-- `SearchIndex.reset_cursor`. -/
def SearchIndex.reset_cursor (s : SearchIndex) (backward : Bool) : SearchIndex :=
  let s := { s with current_entity_index := 0, current_tag_index := (0 : Int) }
  if s.entities.length ≠ 0 then
    let s := { s with end_of_index := false }
    if backward then
      { s with current_entity_index := s.entities.length - 1,
               current_tag_index :=
                 ((s.entities.getLast?.map (fun e => e.tags.length)).getD 0 : Int) - 1 }
    else s
  else { s with end_of_index := true }

/-- `SearchIndex.current_entity`: the record under the cursor with the tag
index, or `(None, -1)`.  The inner `none` models the `IndexError` of
`self.entities[self._current_entity_index]` on an out-of-range record index
(unreachable through the public operations). -/
def SearchIndex.current_entity (s : SearchIndex) : Option (Option (Tags × Int)) :=
  if s.entities.length ≠ 0 ∧ s.end_of_index = false then
    match s.entities[s.current_entity_index]? with
    | none => none
    | some e => some (some (e, s.current_tag_index))
  else some none

/-- `SearchIndex.move_cursor_forward`.  The record under the cursor is read
with a default empty record where Python would raise on an out-of-range
record index (unreachable through the public operations). -/
def SearchIndex.move_cursor_forward (s : SearchIndex) : SearchIndex :=
  if s.entities.length ≠ 0 then
    let entity := (s.entities[s.current_entity_index]?).getD ⟨0, []⟩
    let tag_index := s.current_tag_index + 1
    if tag_index ≥ (entity.tags.length : Int) then
      let entity_index := s.current_entity_index + 1
      if entity_index < s.entities.length then
        { s with current_entity_index := entity_index,
                 current_tag_index := (0 : Int) }
      else { s with end_of_index := true }
    else { s with current_tag_index := tag_index }
  else s

/-- `SearchIndex.move_cursor_backward`. -/
def SearchIndex.move_cursor_backward (s : SearchIndex) : SearchIndex :=
  if s.entities.length ≠ 0 then
    let tag_index := s.current_tag_index - 1
    if tag_index < 0 then
      if 1 ≤ s.current_entity_index then
        let entity_index := s.current_entity_index - 1
        { s with current_entity_index := entity_index,
                 current_tag_index :=
                   (((s.entities[entity_index]?).getD ⟨0, []⟩).tags.length : Int) - 1 }
      else { s with end_of_index := true }
    else { s with current_tag_index := tag_index }
  else s

/-- `SearchIndex.reset_search_term`. -/
def SearchIndex.reset_search_term (s : SearchIndex) (term : String) : SearchIndex :=
  { s with search_term := some term, search_term_lower := some (strLower term) }

/-- `SearchIndex._match` on a tag's code and value: a non-string-typed code
matches only when number matching is on, after conversion of the value to
its textual form; then case folding, and whole-word or substring
containment of the stored search term. -/
def SearchIndex.matchTag (s : SearchIndex) (code : Int) (value : TagValue) : Bool :=
  if tagTypeIsStr code = false ∧ s.numbers = false then false
  else
    -- on a non-string-typed code the value is converted by `str(value)`;
    -- on a string-typed code the value already is its own string form
    let text := value.toText
    let (term, text) :=
      if s.case_insensitive then ((s.search_term_lower).getD "", strLower text)
      else ((s.search_term).getD "", text)
    if s.whole_words then (splitWs text).any (fun w => term = w)
    else strContains text term

/-- The loop of `SearchIndex._find` (`while not self._end_of_index`), with
explicit fuel.  Each iteration strictly advances the cursor or sets the
end-of-index flag, so the loop runs at most once per cursor position; every
caller passes fuel exceeding the number of positions and never exhausts it.
The outer `none` models a crash (`IndexError` on reading the tag under the
cursor, or fuel exhaustion); `some none` is the `NOT_FOUND` result. -/
def SearchIndex.findLoop (s : SearchIndex) (fw : Bool) :
    Nat → Option (Option (Tags × Int))
  | 0 => none
  | fuel + 1 =>
    if s.end_of_index then some none
    else
      match s.current_entity with
      | none => none
      | some none => some none
      | some (some (entity, tag_index)) =>
        let s' := if fw then s.move_cursor_forward else s.move_cursor_backward
        match pyIdx entity.tags tag_index with
        | none => none
        | some tag =>
          if s'.matchTag tag.code tag.val then some (some (entity, tag_index))
          else s'.findLoop fw fuel

/-- Fuel bound for the `_find` loop: one per tag position plus one per
record plus one. -/
def SearchIndex.fuel (s : SearchIndex) : Nat :=
  (s.entities.map (fun e => e.tags.length + 1)).sum + 1

/-- `SearchIndex._find` (with the direction chosen by
`find_forward`/`find_backwards`): guarded by non-empty record list, truthy
search term and not at end of index. -/
def SearchIndex.findDir (s : SearchIndex) (fw : Bool) :
    Option (Option (Tags × Int)) :=
  if s.entities.length ≠ 0 ∧ (s.search_term.getD "") ≠ "" ∧
      s.end_of_index = false then
    s.findLoop fw (s.fuel)
  else some none

/-- `SearchIndex.find`: store the search term, optionally reset the cursor,
then search in the requested direction; `(None, -1)` (here `some none`) when
the record list is empty or the cursor is at the end of the index. -/
def SearchIndex.find (s : SearchIndex) (term : String)
    (backward : Bool := false) (reset_index : Bool := true) :
    Option (Option (Tags × Int)) :=
  let s := s.reset_search_term term
  let s := if reset_index then s.reset_cursor backward else s
  if s.entities.length ≠ 0 ∧ s.end_of_index = false then
    s.findDir (!backward)
  else some none

/-! ### Concrete example data -/

/-- All records of a section mapping in file order: concatenation of the
sections' record lists in mapping iteration order. -/
def allRecords (sections : SectionDict) : List Tags :=
  (sections.map (fun p => p.2)).flatten

/-- A handle-less string tag with object identity `i`. -/
def exTag (i : Nat) : DXFTag := ⟨i, 1, .str "x"⟩

/-- A record with identity `r` and `n` handle-less tags. -/
def exRec (r n : Nat) : Tags :=
  ⟨r, (List.range n).map (fun k => exTag (100 * r + k))⟩

/-- The 2-section mapping of claim C1: HEADER = [rec1 with 3 tags],
ENTITIES = [rec2 with 2 tags, rec3 with 4 tags]. -/
def c1Sections : SectionDict :=
  [("HEADER", [exRec 1 3]), ("ENTITIES", [exRec 2 2, exRec 3 4])]

/-- Four pairwise distinct records A, B, C, D for the history claims. -/
def recA : Tags := ⟨10, [exTag 500]⟩

/-- Record B. -/
def recB : Tags := ⟨11, [exTag 501]⟩

/-- Record C. -/
def recC : Tags := ⟨12, [exTag 502]⟩

/-- Record D. -/
def recD : Tags := ⟨13, [exTag 503]⟩

/-- History after append(A), append(B), append(C). -/
def historyABC : EntityHistory :=
  ((EntityHistory.init.append recA).append recB).append recC

/-- First back() call on [A,B,C]. -/
def historyBack1 : Option Tags × EntityHistory := historyABC.back

/-- Second back() call. -/
def historyBack2 : Option Tags × EntityHistory := historyBack1.2.back

/-- append(D) after the two back() calls. -/
def historyAfterD : EntityHistory := historyBack2.2.append recD

/-- The record with the single integer tag (70, 10) of claim C8. -/
def numRec : Tags := ⟨20, [⟨600, 70, .int 10⟩]⟩

/-- Two records carrying the same real handle "A" in one section. -/
def dupSections : SectionDict :=
  [("ENTITIES", [⟨1, [⟨1, 5, .str "A"⟩]⟩, ⟨2, [⟨2, 5, .str "A"⟩]⟩])]

/-- The entries whose record has no extractable handle (these received
synthetic handles during the build). -/
def synthEntries (sections : SectionDict) : List IndexEntry :=
  (handleEntries sections).filter (fun e => (e.tags.get_handle).isNone)

/-- The uppercased synthetic handles for the counter running from `d1`
(inclusive) to `d2` (exclusive). -/
def synthRange (d1 d2 : Nat) : List String :=
  (List.range (d2 - d1)).map (fun k => strUpper ("*" ++ hexUpper (d1 + k)))

/-- A mapping with a leading empty section: the first record starts at
line 3. -/
def gapSections : SectionDict := [("EMPTY", []), ("ENTITIES", [exRec 5 1])]

/-- Two records with zero tags sharing start line 1. -/
def zeroSections : SectionDict := [("S", [⟨31, []⟩, ⟨32, []⟩])]

/-- Record 1 with real handle "A". -/
def c5r1 : Tags := ⟨41, [⟨41, 5, .str "A"⟩]⟩

/-- Record 2, also with real handle "A". -/
def c5r2 : Tags := ⟨42, [⟨42, 5, .str "A"⟩]⟩

/-- Record 3 with real handle "B". -/
def c5r3 : Tags := ⟨43, [⟨43, 5, .str "B"⟩]⟩

/-- A mapping with a duplicated handle: the dict stores only one entry under
"A", which belongs to the second record. -/
def c5Sections : SectionDict := [("ENTITIES", [c5r1, c5r2, c5r3])]

/-- A well-formed mapping with three distinct uppercase handles. -/
def c5GoodSections : SectionDict :=
  [("ENTITIES", [⟨61, [⟨61, 5, .str "A"⟩]⟩, ⟨62, [⟨62, 5, .str "B"⟩]⟩,
    ⟨63, [⟨63, 5, .str "C"⟩]⟩])]

/-- C1 counterexample: on the mapping HEADER=[rec1(3 tags)],
ENTITIES=[rec2(2 tags), rec3(4 tags)] the built LineIndex does NOT assign
start line 15 to rec3 and max_line_number 22: rec2 and rec3 lie in the same
section, so no 2-line section gap separates them; rec3 starts at
9 + 2*2 = 13 and max_line_number is 13 + 4*2 - 1 = 20. -/
theorem c1_counterexample :
    ¬((LineIndex.build c1Sections).get_start_line_for_entity (exRec 3 4) = 15 ∧
      (LineIndex.build c1Sections).max_line_number = 22) := by
  decide

/-- C1 (amended): for the section mapping HEADER=[rec1 with 3 tags],
ENTITIES=[rec2 with 2 tags, rec3 with 4 tags], the built LineIndex assigns
start lines rec1=1, rec2=9, rec3=13 (rec2 and rec3 are in the same section:
no section gap between them), and max_line_number = 13 + 4*2 - 1 = 20. -/
theorem c1_line_index_start_lines :
    (LineIndex.build c1Sections).get_start_line_for_entity (exRec 1 3) = 1 ∧
    (LineIndex.build c1Sections).get_start_line_for_entity (exRec 2 2) = 9 ∧
    (LineIndex.build c1Sections).get_start_line_for_entity (exRec 3 4) = 13 ∧
    (LineIndex.build c1Sections).line_index =
      [(1, exRec 1 3), (9, exRec 2 2), (13, exRec 3 4)] ∧
    (LineIndex.build c1Sections).max_line_number = 20 := by
  decide

/-- C2 counterexample: after append(A), append(B), append(C), two back()
calls and append(D), the history content is NOT [A,B,C,A,D]: the two back()
calls push B then A onto the time-travel buffer, and append(D) flushes that
buffer in visit order, giving [A,B,C,B,A,D]. -/
theorem c2_counterexample :
    ¬(historyAfterD.content = [recA, recB, recC, recA, recD]) := by
  decide

/-- C2 (amended): after append(A), append(B), append(C) of pairwise distinct
records, the next two back() calls return B then A, and a subsequent
append(D) flushes the time-travel buffer [B, A] into the history in visit
order, leaving content [A,B,C,B,A,D], with the cursor on D and the
time-travel buffer empty, so that forward() can no longer reach B or C: it
returns D and leaves the state unchanged. -/
theorem c2_history_time_travel :
    historyBack1.1 = some recB ∧
    historyBack2.1 = some recA ∧
    historyAfterD.content = [recA, recB, recC, recB, recA, recD] ∧
    historyAfterD.index = 5 ∧
    historyAfterD.time_travel = [] ∧
    historyAfterD.forward = (some recD, historyAfterD) := by
  decide

/-- C10: on any non-empty history, back() with the cursor at index 0 returns
the first record and leaves the whole state unchanged, and forward() with
the cursor at the last index returns the last record and leaves the whole
state unchanged. -/
theorem c10_history_boundary_frame (h : EntityHistory)
    (hne : h.history ≠ []) :
    (h.index = 0 → h.back = (h.history.head?, h)) ∧
    (h.index + 1 = h.history.length →
      h.forward = (h.history.getLast?, h)) := by
  constructor
  · intro h0
    rw [EntityHistory.back]
    simp [hne, h0]
  · intro hlast
    rw [EntityHistory.forward]
    simp [hne, hlast]

/-- C10 witness at the single-record history with cursor 0. -/
theorem c10_witness :
    ((⟨[recA], 0, []⟩ : EntityHistory).history ≠ []) ∧
    (((⟨[recA], 0, []⟩ : EntityHistory).index = 0 →
        (⟨[recA], 0, []⟩ : EntityHistory).back =
          ((⟨[recA], 0, []⟩ : EntityHistory).history.head?,
            (⟨[recA], 0, []⟩ : EntityHistory))) ∧
      ((⟨[recA], 0, []⟩ : EntityHistory).index + 1 =
          (⟨[recA], 0, []⟩ : EntityHistory).history.length →
        (⟨[recA], 0, []⟩ : EntityHistory).forward =
          ((⟨[recA], 0, []⟩ : EntityHistory).history.getLast?,
            (⟨[recA], 0, []⟩ : EntityHistory)))) :=
  ⟨by decide, c10_history_boundary_frame ⟨[recA], 0, []⟩ (by decide)⟩

/-! ### C8: SearchIndex matching lemmas -/

/-- A successful `_match` with number matching off can only happen on a
string-typed group code. -/
theorem matchTag_is_str {s : SearchIndex} {code : Int} {v : TagValue}
    (hn : s.numbers = false) (hm : s.matchTag code v = true) :
    tagTypeIsStr code = true := by
  by_cases hc : tagTypeIsStr code = true
  · exact hc
  · rw [SearchIndex.matchTag] at hm
    simp only [Bool.not_eq_true] at hc
    rw [if_pos ⟨hc, hn⟩] at hm
    exact absurd hm (by simp)

/-- Cursor movement does not touch the matching configuration. -/
theorem numbers_move_cursor_forward (s : SearchIndex) :
    s.move_cursor_forward.numbers = s.numbers := by
  rw [SearchIndex.move_cursor_forward]
  split <;> dsimp only <;> (repeat' split) <;> rfl

/-- Cursor movement does not touch the matching configuration. -/
theorem numbers_move_cursor_backward (s : SearchIndex) :
    s.move_cursor_backward.numbers = s.numbers := by
  rw [SearchIndex.move_cursor_backward]
  split <;> dsimp only <;> (repeat' split) <;> rfl

/-- Cursor reset does not touch the matching configuration. -/
theorem numbers_reset_cursor (s : SearchIndex) (bw : Bool) :
    (s.reset_cursor bw).numbers = s.numbers := by
  rw [SearchIndex.reset_cursor]
  dsimp only
  split <;> (repeat' split) <;> rfl

/-- The `_find` loop only ever reports a match position whose tag has a
string-typed group code when number matching is off. -/
theorem findLoop_match_is_str :
    ∀ (fuel : Nat) (s : SearchIndex) (fw : Bool) (e : Tags) (ti : Int),
      s.numbers = false → s.findLoop fw fuel = some (some (e, ti)) →
      ∃ tg, pyIdx e.tags ti = some tg ∧ tagTypeIsStr tg.code = true := by
  intro fuel
  induction fuel with
  | zero =>
    intro s fw e ti hn hres
    simp [SearchIndex.findLoop] at hres
  | succ n ih =>
    intro s fw e ti hn hres
    rw [SearchIndex.findLoop] at hres
    by_cases hend : s.end_of_index = true
    · simp [hend] at hres
    · simp only [Bool.not_eq_true] at hend
      rw [hend] at hres
      simp only [Bool.false_eq_true, if_false] at hres
      cases hce : s.current_entity with
      | none => rw [hce] at hres; exact absurd hres (by simp)
      | some o =>
        cases o with
        | none => rw [hce] at hres; exact absurd hres (by simp)
        | some p =>
          obtain ⟨entity, tag_index⟩ := p
          rw [hce] at hres
          simp only at hres
          cases hpy : pyIdx entity.tags tag_index with
          | none => rw [hpy] at hres; exact absurd hres (by simp)
          | some tag =>
            rw [hpy] at hres
            simp only at hres
            by_cases hm :
                ((if fw then s.move_cursor_forward
                  else s.move_cursor_backward).matchTag tag.code tag.val) = true
            · rw [if_pos hm] at hres
              obtain ⟨he, hti⟩ : entity = e ∧ tag_index = ti := by
                simpa using hres
              subst he; subst hti
              refine ⟨tag, hpy, ?_⟩
              refine matchTag_is_str ?_ hm
              cases fw <;>
                simp [numbers_move_cursor_forward,
                  numbers_move_cursor_backward, hn]
            · rw [if_neg hm] at hres
              refine ih _ fw e ti ?_ hres
              cases fw <;>
                simp [numbers_move_cursor_forward,
                  numbers_move_cursor_backward, hn]

/-- C8: with number matching disabled, `find` never returns a match position
whose tag has a non-string-typed group code, for any search term, direction
and cursor reset mode; and with number matching enabled, the term "10"
matches a tag holding integer value 10 through its string conversion. -/
theorem c8_search_numbers_matching :
    (∀ (s : SearchIndex) (term : String) (bw ri : Bool) (e : Tags) (ti : Int),
        s.numbers = false →
        s.find term bw ri = some (some (e, ti)) →
        ∃ tg, pyIdx e.tags ti = some tg ∧ tagTypeIsStr tg.code = true) ∧
    ({ SearchIndex.init [numRec] with numbers := true }.find "10" false true =
      some (some (numRec, 0))) := by
  constructor
  · intro s term bw ri e ti hn hres
    rw [SearchIndex.find] at hres
    set s2 := if ri then (s.reset_search_term term).reset_cursor bw
      else s.reset_search_term term with hs2
    have hn2 : s2.numbers = false := by
      rw [hs2]
      cases ri <;> simp [numbers_reset_cursor, SearchIndex.reset_search_term, hn]
    by_cases hguard : s2.entities.length ≠ 0 ∧ s2.end_of_index = false
    · rw [if_pos hguard] at hres
      rw [SearchIndex.findDir] at hres
      by_cases hguard2 : s2.entities.length ≠ 0 ∧
          (s2.search_term.getD "") ≠ "" ∧ s2.end_of_index = false
      · rw [if_pos hguard2] at hres
        exact findLoop_match_is_str _ s2 _ e ti hn2 hres
      · rw [if_neg hguard2] at hres
        exact absurd hres (by simp)
    · rw [if_neg hguard] at hres
      exact absurd hres (by simp)
  · decide

/-- C8 witness: with number matching off, a search that does return a match
(term "x" over a record with the string tag (1, "x")) returns a position
whose tag is string-typed. -/
theorem c8_witness :
    ((SearchIndex.init [recA]).numbers = false ∧
      (SearchIndex.init [recA]).find "x" false true =
        some (some (recA, 0))) ∧
    (∃ tg, pyIdx recA.tags 0 = some tg ∧ tagTypeIsStr tg.code = true) :=
  ⟨⟨by decide, by decide⟩,
    c8_search_numbers_matching.1 (SearchIndex.init [recA]) "x" false true
      recA 0 (by decide) (by decide)⟩

/-! ### Dictionary lemmas -/

theorem dictGet_update_self {κ β : Type} [DecidableEq κ] (k : κ) (v : β) :
    ∀ d : List (κ × β), dictGet k (dictUpdate k v d) = some v := by
  intro d
  induction d with
  | nil => simp [dictUpdate, dictGet]
  | cons p rest ih =>
    obtain ⟨k', v'⟩ := p
    by_cases h : k' = k
    · subst h; simp [dictUpdate, dictGet]
    · simp [dictUpdate, dictGet, h, ih]

theorem dictGet_update_other {κ β : Type} [DecidableEq κ] {k k' : κ}
    (hne : k' ≠ k) (v : β) :
    ∀ d : List (κ × β), dictGet k (dictUpdate k' v d) = dictGet k d := by
  intro d
  induction d with
  | nil => simp [dictUpdate, dictGet, hne]
  | cons p rest ih =>
    obtain ⟨k0, v0⟩ := p
    by_cases h : k0 = k'
    · subst h
      have h2 : k0 ≠ k := hne
      simp [dictUpdate, dictGet, h2]
    · by_cases h2 : k0 = k
      · subst h2
        simp [dictUpdate, dictGet, h]
      · simp [dictUpdate, dictGet, h, h2, ih]

theorem dictUpdate_not_mem {κ β : Type} [DecidableEq κ] {k : κ} (v : β) :
    ∀ d : List (κ × β), k ∉ d.map Prod.fst → dictUpdate k v d = d ++ [(k, v)] := by
  intro d
  induction d with
  | nil => intro _; rfl
  | cons p rest ih =>
    intro hk
    obtain ⟨k0, v0⟩ := p
    simp only [List.map_cons, List.mem_cons] at hk
    push_neg at hk
    have h : k0 ≠ k := fun h => hk.1 h.symm
    simp [dictUpdate, h, ih hk.2]

theorem foldl_dictUpdate_nodup {κ β : Type} [DecidableEq κ] :
    ∀ (pairs d : List (κ × β)),
      ((d.map Prod.fst) ++ (pairs.map Prod.fst)).Nodup →
      pairs.foldl (fun d p => dictUpdate p.1 p.2 d) d = d ++ pairs := by
  intro pairs
  induction pairs with
  | nil => intro d _; simp
  | cons p rest ih =>
    intro d hnd
    obtain ⟨k, v⟩ := p
    have hmem : k ∉ d.map Prod.fst := by
      simp only [List.nodup_append, List.map_cons] at hnd
      intro hk
      exact hnd.2.2 hk (by simp)
    have hstep : dictUpdate k v d = d ++ [(k, v)] := dictUpdate_not_mem v d hmem
    have hnd' : (((d ++ [(k, v)]).map Prod.fst) ++ (rest.map Prod.fst)).Nodup := by
      simpa [List.append_assoc] using hnd
    calc ((k, v) :: rest).foldl (fun d p => dictUpdate p.1 p.2 d) d
        = rest.foldl (fun d p => dictUpdate p.1 p.2 d) (d ++ [(k, v)]) := by
          simp [List.foldl_cons, hstep]
      _ = (d ++ [(k, v)]) ++ rest := ih (d ++ [(k, v)]) hnd'
      _ = d ++ ((k, v) :: rest) := by simp

theorem dictGet_foldl_mem {κ β : Type} [DecidableEq κ] :
    ∀ (pairs d : List (κ × β)) (k : κ) (v : β),
      dictGet k (pairs.foldl (fun d p => dictUpdate p.1 p.2 d) d) = some v →
      (k, v) ∈ pairs ∨ dictGet k d = some v := by
  intro pairs
  induction pairs with
  | nil => intro d k v h; exact Or.inr h
  | cons p rest ih =>
    intro d k v h
    obtain ⟨k0, v0⟩ := p
    rw [List.foldl_cons] at h
    rcases ih (dictUpdate k0 v0 d) k v h with hmem | hget
    · exact Or.inl (List.mem_cons_of_mem _ hmem)
    · by_cases hk : k0 = k
      · subst hk
        rw [dictGet_update_self] at hget
        obtain rfl : v0 = v := by injection hget
        exact Or.inl (List.mem_cons_self _ _)
      · rw [dictGet_update_other hk] at hget
        exact Or.inr hget

theorem dictGet_foldl_isSome {κ β : Type} [DecidableEq κ] :
    ∀ (pairs d : List (κ × β)) (k : κ),
      (k ∈ pairs.map Prod.fst ∨ (dictGet k d).isSome = true) →
      (dictGet k (pairs.foldl (fun d p => dictUpdate p.1 p.2 d) d)).isSome = true := by
  intro pairs
  induction pairs with
  | nil =>
    intro d k h
    rcases h with h | h
    · simp at h
    · exact h
  | cons p rest ih =>
    intro d k h
    obtain ⟨k0, v0⟩ := p
    rw [List.foldl_cons]
    apply ih
    rcases h with h | h
    · simp only [List.map_cons, List.mem_cons] at h
      rcases h with h | h
      · subst h
        right
        rw [dictGet_update_self]
        rfl
      · exact Or.inl h
    · by_cases hk : k0 = k
      · subst hk
        right
        rw [dictGet_update_self]
        rfl
      · right
        rw [dictGet_update_other hk]
        exact h

theorem dictGet_nodup_getElem {κ β : Type} [DecidableEq κ] :
    ∀ (ps : List (κ × β)) (i : Nat) (h : i < ps.length),
      (ps.map Prod.fst).Nodup →
      dictGet (ps[i].1) ps = some (ps[i].2) := by
  intro ps
  induction ps with
  | nil => intro i h _; simp at h
  | cons p rest ih =>
    intro i h hnd
    obtain ⟨k0, v0⟩ := p
    simp only [List.map_cons, List.nodup_cons] at hnd
    cases i with
    | zero => simp [dictGet]
    | succ j =>
      have hj : j < rest.length := by simpa using h
      have hne : k0 ≠ (rest[j]).1 := by
        intro heq
        exact hnd.1 (heq ▸ List.mem_map_of_mem Prod.fst (rest.getElem_mem hj))
      simpa [dictGet, List.getElem_cons_succ, hne] using ih j hj hnd.2

/-! ### Structure of the built HandleIndex -/

/-- The keys of the handle-to-position pair list are the assigned handles,
in creation order. -/
theorem pairs_keys (es : List IndexEntry) :
    ∀ n : Nat, ((es.enumFrom n).map (fun p => (p.2.handle, p.1))).map Prod.fst
      = es.map (fun e => e.handle) := by
  induction es with
  | nil => intro n; rfl
  | cons e rest ih => intro n; simp [List.enumFrom, ih]

/-- Position lookup in the handle-to-position pair list. -/
theorem pairs_getElem (es : List IndexEntry) (i : Nat) (h : i < es.length) :
    (es.enum.map (fun p => (p.2.handle, p.1)))[i]? = some ((es[i]).handle, i) := by
  have hb : i < (es.enum.map (fun p => (p.2.handle, p.1))).length := by
    simpa using h
  rw [List.getElem?_eq_getElem hb, List.getElem_map, List.getElem_enum]

/-- Under pairwise distinct assigned handles, no dict entry is overwritten:
the built dict is exactly the creation-order pair list. -/
theorem build_index_eq (sections : SectionDict)
    (hnd : ((handleEntries sections).map (fun e => e.handle)).Nodup) :
    (HandleIndex.build sections).index
      = (handleEntries sections).enum.map (fun p => (p.2.handle, p.1)) := by
  show ((handleEntries sections).enum.map (fun p => (p.2.handle, p.1))).foldl
      (fun d p => dictUpdate p.1 p.2 d) [] = _
  rw [foldl_dictUpdate_nodup]
  · rfl
  · simp only [List.map_nil, List.nil_append]
    rw [show (handleEntries sections).enum
        = (handleEntries sections).enumFrom 0 from rfl,
      pairs_keys (handleEntries sections) 0]
    exact hnd

/-- Reading the record stored at position `n` out of the list it was dropped
from. -/
theorem getElem?_of_drop {α : Type} (es : List α) (n : Nat) (x : α)
    (l : List α) (h : es.drop n = x :: l) : es[n]? = some x := by
  have h0 := List.getElem?_drop es n 0
  rw [h] at h0
  simpa using h0.symm

/-- Dropping one more element. -/
theorem drop_succ_of_drop {α : Type} (es : List α) (n : Nat) (x : α)
    (l : List α) (h : es.drop n = x :: l) : es.drop (n + 1) = l := by
  have h1 : es.drop (n + 1) = (es.drop n).drop 1 := by
    rw [List.drop_drop]
  rw [h1, h]
  rfl

/-- Resolving the stored positions of the pair list recovers the entries
themselves (the dict values are the entry objects). -/
theorem filterMap_entries (es : List IndexEntry) :
    ∀ (n : Nat) (l : List IndexEntry), es.drop n = l →
      ((l.enumFrom n).map (fun p => (p.2.handle, p.1))).filterMap
        (fun p => es[p.2]?) = l := by
  intro n l
  induction l generalizing n with
  | nil => intro _; rfl
  | cons x rest ih =>
    intro hdrop
    have hx : es[n]? = some x := getElem?_of_drop es n x rest hdrop
    have hdrop' : es.drop (n + 1) = rest := drop_succ_of_drop es n x rest hdrop
    simp only [List.enumFrom, List.map_cons, List.filterMap_cons, hx]
    rw [ih (n + 1) hdrop']

/-- Resolving the stored positions with their keys recovers the
(handle, entry) item pairs. -/
theorem filterMap_items (es : List IndexEntry) :
    ∀ (n : Nat) (l : List IndexEntry), es.drop n = l →
      ((l.enumFrom n).map (fun p => (p.2.handle, p.1))).filterMap
        (fun p => (es[p.2]?).map (fun e => (p.1, e)))
        = l.map (fun e => (e.handle, e)) := by
  intro n l
  induction l generalizing n with
  | nil => intro _; rfl
  | cons x rest ih =>
    intro hdrop
    have hx : es[n]? = some x := getElem?_of_drop es n x rest hdrop
    have hdrop' : es.drop (n + 1) = rest := drop_succ_of_drop es n x rest hdrop
    simp only [List.enumFrom, List.map_cons, List.filterMap_cons, hx,
      Option.map_some']
    rw [ih (n + 1) hdrop']

/-- Under pairwise distinct assigned handles, the dict values in dict order
are exactly the entries in creation order. -/
theorem build_values_eq (sections : SectionDict)
    (hnd : ((handleEntries sections).map (fun e => e.handle)).Nodup) :
    (HandleIndex.build sections).values = handleEntries sections := by
  show ((HandleIndex.build sections).index).filterMap
      (fun p => (HandleIndex.build sections).entries[p.2]?) = _
  rw [build_index_eq sections hnd]
  show (((handleEntries sections).enumFrom 0).map
      (fun p => (p.2.handle, p.1))).filterMap
      (fun p => (handleEntries sections)[p.2]?) = _
  exact filterMap_entries (handleEntries sections) 0 (handleEntries sections) rfl

/-- Under pairwise distinct assigned handles, the dict items in dict order
are the (handle, entry) pairs in creation order. -/
theorem build_items_eq (sections : SectionDict)
    (hnd : ((handleEntries sections).map (fun e => e.handle)).Nodup) :
    (HandleIndex.build sections).items
      = (handleEntries sections).map (fun e => (e.handle, e)) := by
  show ((HandleIndex.build sections).index).filterMap
      (fun p => ((HandleIndex.build sections).entries[p.2]?).map
        (fun e => (p.1, e))) = _
  rw [build_index_eq sections hnd]
  exact filterMap_items (handleEntries sections) 0 (handleEntries sections) rfl

/-- The records of the created entries, in creation order, are the records
of the section lists. -/
theorem handleBuildRecs_tags :
    ∀ (recs : List Tags) (line dummy : Nat),
      ((handleBuildRecs line dummy recs).1).map (fun e => e.tags) = recs := by
  intro recs
  induction recs with
  | nil => intro line dummy; rfl
  | cons t rest ih =>
    intro line dummy
    cases ht : t.get_handle <;>
      simp [handleBuildRecs, ht, ih]

/-- Creation order reproduces the concatenated file order of the records. -/
theorem handleBuildSections_tags :
    ∀ (sections : SectionDict) (line dummy : Nat),
      ((handleBuildSections line dummy sections).1).map (fun e => e.tags)
        = (sections.map (fun p => p.2)).flatten := by
  intro sections
  induction sections with
  | nil => intro line dummy; rfl
  | cons sec rest ih =>
    intro line dummy
    obtain ⟨name, recs⟩ := sec
    simp [handleBuildSections, handleBuildRecs_tags, ih]

/-- `HandleIndex._build` visits the records in file order. -/
theorem handleEntries_tags (sections : SectionDict) :
    (handleEntries sections).map (fun e => e.tags) = allRecords sections :=
  handleBuildSections_tags sections 1 1

/-- Per-record bridge between the two builds: `HandleIndex._build` computes
the same `(start line, record)` association and the same final line number
as the `LineIndex` accumulation, record by record. -/
theorem handleBuildRecs_bridge :
    ∀ (recs : List Tags) (line dummy : Nat),
      ((handleBuildRecs line dummy recs).1).map (fun e => (e.line, e.tags))
          = (lineRecs line recs).1 ∧
        (handleBuildRecs line dummy recs).2.1 = (lineRecs line recs).2 := by
  intro recs
  induction recs with
  | nil => intro line dummy; exact ⟨rfl, rfl⟩
  | cons t rest ih =>
    intro line dummy
    cases ht : t.get_handle with
    | none =>
      obtain ⟨ih1, ih2⟩ := ih (line + t.tags.length * 2) (dummy + 1)
      constructor
      · simp [handleBuildRecs, lineRecs, ht, ih1]
      · simp [handleBuildRecs, lineRecs, ht, ih2]
    | some h =>
      obtain ⟨ih1, ih2⟩ := ih (line + t.tags.length * 2) dummy
      constructor
      · simp [handleBuildRecs, lineRecs, ht, ih1]
      · simp [handleBuildRecs, lineRecs, ht, ih2]

/-- Section-level bridge between the two builds. -/
theorem handleBuildSections_bridge :
    ∀ (sections : SectionDict) (line dummy : Nat),
      ((handleBuildSections line dummy sections).1).map
          (fun e => (e.line, e.tags)) = (lineSections line sections).1 ∧
        (handleBuildSections line dummy sections).2.1
          = (lineSections line sections).2 := by
  intro sections
  induction sections with
  | nil => intro line dummy; exact ⟨rfl, rfl⟩
  | cons sec rest ih =>
    intro line dummy
    obtain ⟨name, recs⟩ := sec
    obtain ⟨hr1, hr2⟩ := handleBuildRecs_bridge recs line dummy
    obtain ⟨ih1, ih2⟩ :=
      ih ((handleBuildRecs line dummy recs).2.1 + 2)
        (handleBuildRecs line dummy recs).2.2
    constructor
    · simp [handleBuildSections, lineSections, hr1, ← hr2, ih1]
    · simp [handleBuildSections, lineSections, ← hr2, ih2]

/-- The two builds agree on the `(start line, record)` sequence. -/
theorem handleEntries_pairs (sections : SectionDict) :
    (handleEntries sections).map (fun e => (e.line, e.tags))
      = linePairs sections :=
  (handleBuildSections_bridge sections 1 1).1

/-- The two builds agree on the final running line number. -/
theorem handleFinalLine_eq (sections : SectionDict) :
    handleFinalLine sections = (lineSections 1 sections).2 :=
  (handleBuildSections_bridge sections 1 1).2

/-- With fuel at least `n`, the fueled digit computation is `Nat.digits`. -/
theorem hexDigitsRev_eq_digits :
    ∀ (fuel n : Nat), n ≤ fuel → hexDigitsRev fuel n = Nat.digits 16 n := by
  intro fuel
  induction fuel with
  | zero =>
    intro n hn
    obtain rfl : n = 0 := Nat.le_zero.mp hn
    simp [hexDigitsRev, Nat.digits_zero]
  | succ f ih =>
    intro n hn
    by_cases h0 : n = 0
    · subst h0; simp [hexDigitsRev, Nat.digits_zero]
    · rw [hexDigitsRev, if_neg h0,
        Nat.digits_def' (by norm_num : 1 < 16) (Nat.pos_of_ne_zero h0)]
      congr 1
      have hdiv : n / 16 < n := Nat.div_lt_self (Nat.pos_of_ne_zero h0) (by norm_num)
      exact ih (n / 16) (by omega)

/-- The fueled digit list agrees with `Nat.digits 16`. -/
theorem hexRep_eq_digits (n : Nat) : hexRep n = Nat.digits 16 n :=
  hexDigitsRev_eq_digits n n le_rfl

/-! ### C6: iteration order -/

/-- C6 counterexample: when two records carry the same handle, the second
dict assignment overwrites the first entry (keeping its position), so
iterating the built HandleIndex yields only one record and cannot reproduce
the file order. -/
theorem c6_counterexample :
    ¬(((HandleIndex.build dupSections).values).map (fun e => e.tags)
        = allRecords dupSections) := by
  decide

/-- C6 (amended): for every SectionMapping whose records receive pairwise
distinct assigned handles, iterating the built HandleIndex's entries in
stored dict order yields exactly the records of the mapping in original
file order (the concatenation of the sections' record sequences in mapping
iteration order). -/
theorem c6_iteration_order (sections : SectionDict)
    (hnd : ((handleEntries sections).map (fun e => e.handle)).Nodup) :
    ((HandleIndex.build sections).values).map (fun e => e.tags)
      = allRecords sections := by
  rw [build_values_eq sections hnd, handleEntries_tags]

/-- C6 witness at the mapping of claim C1 (three records with synthetic,
pairwise distinct handles). -/
theorem c6_witness :
    (((handleEntries c1Sections).map (fun e => e.handle)).Nodup) ∧
    (((HandleIndex.build c1Sections).values).map (fun e => e.tags)
      = allRecords c1Sections) :=
  ⟨by decide, c6_iteration_order c1Sections (by decide)⟩

/-! ### C7: synthetic handles -/

theorem hexDigit_toUpper_fix : ∀ d < 16, Char.toUpper (hexDigit d) = hexDigit d := by
  decide

theorem hexDigit_inj : ∀ d1 < 16, ∀ d2 < 16, hexDigit d1 = hexDigit d2 → d1 = d2 := by
  decide

/-- All digits produced by `hexRep` are below 16. -/
theorem hexRep_lt (n : Nat) : ∀ d ∈ hexRep n, d < 16 := by
  intro d hd
  exact Nat.digits_lt_base (by norm_num) (hexRep_eq_digits n ▸ hd)

/-- The hexadecimal rendering consists of uppercase-stable characters. -/
theorem hexUpper_data_map (n : Nat) :
    (hexUpper n).data.map Char.toUpper = (hexUpper n).data := by
  by_cases h0 : n = 0
  · subst h0; decide
  · show ((hexUpper n).data).map Char.toUpper = (hexUpper n).data
    unfold hexUpper
    rw [if_neg h0]
    show (((hexRep n).map hexDigit).reverse).map Char.toUpper
      = ((hexRep n).map hexDigit).reverse
    rw [List.map_reverse]
    congr 1
    rw [List.map_map]
    apply List.map_congr_left
    intro d hd
    simp only [Function.comp_apply]
    exact hexDigit_toUpper_fix d (hexRep_lt n d hd)

/-- Uppercasing a synthetic handle leaves it unchanged. -/
theorem strUpper_star_hex (d : Nat) :
    strUpper ("*" ++ hexUpper d) = "*" ++ hexUpper d := by
  apply String.ext
  show ("*" ++ hexUpper d).data.map Char.toUpper = ("*" ++ hexUpper d).data
  rw [String.data_append]
  have h1 : ("*" : String).data = ['*'] := rfl
  rw [h1, List.singleton_append, List.map_cons, hexUpper_data_map]
  have h2 : Char.toUpper '*' = '*' := by decide
  rw [h2]

/-- Mapping `hexDigit` over digit lists below 16 is injective. -/
theorem map_hexDigit_inj :
    ∀ (l1 l2 : List Nat), (∀ x ∈ l1, x < 16) → (∀ x ∈ l2, x < 16) →
      l1.map hexDigit = l2.map hexDigit → l1 = l2 := by
  intro l1
  induction l1 with
  | nil =>
    intro l2 _ _ h
    cases l2 with
    | nil => rfl
    | cons b bs => simp at h
  | cons a as ih =>
    intro l2 h1 h2 h
    cases l2 with
    | nil => simp at h
    | cons b bs =>
      simp only [List.map_cons, List.cons.injEq] at h
      have hab : a = b :=
        hexDigit_inj a (h1 a (List.mem_cons_self a as)) b
          (h2 b (List.mem_cons_self b bs)) h.1
      rw [hab,
        ih bs (fun x hx => h1 x (List.mem_cons_of_mem a hx))
          (fun x hx => h2 x (List.mem_cons_of_mem b hx)) h.2]

/-- The hexadecimal rendering is injective on positive numbers. -/
theorem hexUpper_inj {a b : Nat} (ha : 0 < a) (hb : 0 < b)
    (h : hexUpper a = hexUpper b) : a = b := by
  unfold hexUpper at h
  rw [if_neg (Nat.pos_iff_ne_zero.mp ha), if_neg (Nat.pos_iff_ne_zero.mp hb)] at h
  have hrev : ((hexRep a).map hexDigit).reverse = ((hexRep b).map hexDigit).reverse :=
    congrArg String.data h
  have hmap : (hexRep a).map hexDigit = (hexRep b).map hexDigit := by
    have := congrArg List.reverse hrev
    simpa using this
  have hdig : hexRep a = hexRep b :=
    map_hexDigit_inj _ _ (hexRep_lt a) (hexRep_lt b) hmap
  have hd : Nat.digits 16 a = Nat.digits 16 b := by
    rw [← hexRep_eq_digits, ← hexRep_eq_digits]
    exact hdig
  calc a = Nat.ofDigits 16 (Nat.digits 16 a) := (Nat.ofDigits_digits 16 a).symm
    _ = Nat.ofDigits 16 (Nat.digits 16 b) := by rw [hd]
    _ = b := Nat.ofDigits_digits 16 b

/-- A common first character cancels in string equations. -/
theorem star_append_inj {s t : String} (h : "*" ++ s = "*" ++ t) : s = t := by
  have hd := congrArg String.data h
  rw [String.data_append, String.data_append] at hd
  have hst : s.data = t.data := by simpa using hd
  exact String.ext hst

/-- Peeling the first synthetic handle off a counter range. -/
theorem synthRange_cons {d1 d2 : Nat} (h : d1 < d2) :
    synthRange d1 d2
      = strUpper ("*" ++ hexUpper d1) :: synthRange (d1 + 1) d2 := by
  unfold synthRange
  have hm : d2 - d1 = (d2 - (d1 + 1)) + 1 := by omega
  rw [hm, List.range_succ_eq_map, List.map_cons, List.map_map]
  congr 1
  apply List.map_congr_left
  intro k hk
  simp only [Function.comp_apply]
  have harith : d1 + (k + 1) = d1 + 1 + k := by omega
  rw [show Nat.succ k = k + 1 from rfl, harith]

/-- Concatenating adjacent counter ranges. -/
theorem synthRange_compose {d1 d2 d3 : Nat} (h12 : d1 ≤ d2) (h23 : d2 ≤ d3) :
    synthRange d1 d2 ++ synthRange d2 d3 = synthRange d1 d3 := by
  unfold synthRange
  have hsplit : d3 - d1 = (d2 - d1) + (d3 - d2) := by omega
  rw [hsplit, List.range_add, List.map_append, List.map_map]
  congr 1
  apply List.map_congr_left
  intro k hk
  simp only [Function.comp_apply]
  have harith : d1 + ((d2 - d1) + k) = d2 + k := by omega
  rw [harith]

/-- Record-level synthetic handle accounting: the handles of the entries
whose handle extraction failed are exactly the synthetic handles for the
counter values consumed, in order. -/
theorem handleBuildRecs_synth :
    ∀ (recs : List Tags) (line dummy : Nat),
      dummy ≤ (handleBuildRecs line dummy recs).2.2 ∧
        (((handleBuildRecs line dummy recs).1).filter
            (fun e => (e.tags.get_handle).isNone)).map (fun e => e.handle)
          = synthRange dummy (handleBuildRecs line dummy recs).2.2 := by
  intro recs
  induction recs with
  | nil =>
    intro line dummy
    refine ⟨le_rfl, ?_⟩
    simp [handleBuildRecs, synthRange]
  | cons t rest ih =>
    intro line dummy
    cases ht : t.get_handle with
    | some h =>
      obtain ⟨ihle, iheq⟩ := ih (line + t.tags.length * 2) dummy
      constructor
      · simpa [handleBuildRecs, ht] using ihle
      · simp only [handleBuildRecs, ht]
        rw [List.filter_cons]
        simp only [ht, Option.isNone_some, Bool.false_eq_true, if_false]
        exact iheq
    | none =>
      obtain ⟨ihle, iheq⟩ := ih (line + t.tags.length * 2) (dummy + 1)
      have hle : dummy ≤ (handleBuildRecs (line + t.tags.length * 2) (dummy + 1) rest).2.2 := by
        omega
      constructor
      · simpa [handleBuildRecs, ht] using hle
      · simp only [handleBuildRecs, ht]
        rw [List.filter_cons]
        simp only [ht, Option.isNone_none, if_true]
        rw [List.map_cons, iheq]
        have hlt : dummy <
            (handleBuildRecs (line + t.tags.length * 2) (dummy + 1) rest).2.2 := by
          omega
        conv_rhs => rw [synthRange_cons hlt]

/-- Section-level synthetic handle accounting. -/
theorem handleBuildSections_synth :
    ∀ (sections : SectionDict) (line dummy : Nat),
      dummy ≤ (handleBuildSections line dummy sections).2.2 ∧
        (((handleBuildSections line dummy sections).1).filter
            (fun e => (e.tags.get_handle).isNone)).map (fun e => e.handle)
          = synthRange dummy (handleBuildSections line dummy sections).2.2 := by
  intro sections
  induction sections with
  | nil =>
    intro line dummy
    refine ⟨le_rfl, ?_⟩
    simp [handleBuildSections, synthRange]
  | cons sec rest ih =>
    intro line dummy
    obtain ⟨name, recs⟩ := sec
    obtain ⟨h1le, h1eq⟩ := handleBuildRecs_synth recs line dummy
    obtain ⟨h2le, h2eq⟩ :=
      ih ((handleBuildRecs line dummy recs).2.1 + 2)
        (handleBuildRecs line dummy recs).2.2
    have hunfold : handleBuildSections line dummy ((name, recs) :: rest)
        = ((handleBuildRecs line dummy recs).1
            ++ (handleBuildSections ((handleBuildRecs line dummy recs).2.1 + 2)
                (handleBuildRecs line dummy recs).2.2 rest).1,
          (handleBuildSections ((handleBuildRecs line dummy recs).2.1 + 2)
              (handleBuildRecs line dummy recs).2.2 rest).2.1,
          (handleBuildSections ((handleBuildRecs line dummy recs).2.1 + 2)
              (handleBuildRecs line dummy recs).2.2 rest).2.2) := rfl
    rw [hunfold]
    constructor
    · dsimp only
      omega
    · dsimp only
      rw [List.filter_append, List.map_append, h1eq, h2eq]
      exact synthRange_compose h1le h2le

/-- The synthetic handles assigned by a build, in creation order. -/
theorem synthEntries_handles (sections : SectionDict) :
    (synthEntries sections).map (fun e => e.handle)
      = synthRange 1 ((handleBuildSections 1 1 sections).2.2) :=
  (handleBuildSections_synth sections 1 1).2

/-- C7: for every SectionMapping, the records whose handle extraction fails
are assigned the synthetic handles `*<hex>` with counter values 1, 2, 3, ...
strictly increasing in file order across those records (the i-th such record
gets `*` followed by the uppercase hexadecimal form of i+1), the assigned
synthetic handles are pairwise distinct, and `contains()` is true for each
of them on the built index. -/
theorem c7_synthetic_handles (sections : SectionDict) :
    ((synthEntries sections).map (fun e => e.handle)
        = (List.range (synthEntries sections).length).map
            (fun i => "*" ++ hexUpper (1 + i))) ∧
    ((synthEntries sections).map (fun e => e.handle)).Nodup ∧
    (∀ h ∈ (synthEntries sections).map (fun e => e.handle),
        (HandleIndex.build sections).contains h = true) := by
  have hmap := synthEntries_handles sections
  have hlen : (synthEntries sections).length
      = (handleBuildSections 1 1 sections).2.2 - 1 := by
    have hl := congrArg List.length hmap
    simpa [synthRange] using hl
  have hform : (synthEntries sections).map (fun e => e.handle)
      = (List.range (synthEntries sections).length).map
          (fun i => "*" ++ hexUpper (1 + i)) := by
    rw [hmap]
    unfold synthRange
    rw [← hlen]
    apply List.map_congr_left
    intro k _
    exact strUpper_star_hex (1 + k)
  refine ⟨hform, ?_, ?_⟩
  · rw [hform]
    refine List.Nodup.map_on ?_ (List.nodup_range _)
    intro i _ j _ hij
    have h1 : hexUpper (1 + i) = hexUpper (1 + j) := star_append_inj hij
    have h2 : 1 + i = 1 + j := hexUpper_inj (by omega) (by omega) h1
    omega
  · intro h hmem
    have hex : ∃ i, h = "*" ++ hexUpper (1 + i) := by
      rw [hform] at hmem
      obtain ⟨i, _, hi⟩ := List.mem_map.mp hmem
      exact ⟨i, hi.symm⟩
    obtain ⟨i, rfl⟩ := hex
    show (dictGet (strUpper ("*" ++ hexUpper (1 + i)))
      (HandleIndex.build sections).index).isSome = true
    rw [strUpper_star_hex]
    have hmem2 : "*" ++ hexUpper (1 + i)
        ∈ (handleEntries sections).map (fun e => e.handle) := by
      obtain ⟨e, he1, he2⟩ := List.mem_map.mp hmem
      exact List.mem_map.mpr ⟨e, List.mem_of_mem_filter he1, he2⟩
    apply dictGet_foldl_isSome
    left
    rw [show ((handleEntries sections).enum.map
        (fun p => (p.2.handle, p.1))).map Prod.fst
        = (handleEntries sections).map (fun e => e.handle) from
      pairs_keys (handleEntries sections) 0]
    exact hmem2

/-- C7 witness: on the C1 mapping every record lacks a handle; the first
synthetic handle `*1` is assigned and found by `contains`. -/
theorem c7_witness :
    ("*" ++ hexUpper 1 ∈ (synthEntries c1Sections).map (fun e => e.handle)) ∧
    ((HandleIndex.build c1Sections).contains ("*" ++ hexUpper 1) = true) :=
  ⟨by decide, (c7_synthetic_handles c1Sections).2.2 _ (by decide)⟩

/-! ### Line accounting: monotonicity and sortedness -/

/-- Record-level line accounting: all start lines lie between the incoming
line and the final line (leaving room for the record's own lines), and
consecutive records are separated by at least the record's own extent. -/
theorem lineRecs_spec :
    ∀ (recs : List Tags) (line : Nat),
      (∀ p ∈ (lineRecs line recs).1,
          line ≤ p.1 ∧ p.1 + p.2.tags.length * 2 ≤ (lineRecs line recs).2) ∧
      ((lineRecs line recs).1).Pairwise
        (fun a b => a.1 + a.2.tags.length * 2 ≤ b.1) ∧
      line ≤ (lineRecs line recs).2 := by
  intro recs
  induction recs with
  | nil =>
    intro line
    exact ⟨by simp [lineRecs], by simp [lineRecs], le_rfl⟩
  | cons t rest ih =>
    intro line
    obtain ⟨ihb, ihp, ihle⟩ := ih (line + t.tags.length * 2)
    have hunfold : lineRecs line (t :: rest)
        = ((line, t) :: (lineRecs (line + t.tags.length * 2) rest).1,
           (lineRecs (line + t.tags.length * 2) rest).2) := rfl
    rw [hunfold]
    dsimp only
    refine ⟨?_, ?_, by omega⟩
    · intro p hp
      rcases List.mem_cons.mp hp with rfl | hp2
      · exact ⟨le_rfl, by dsimp only; omega⟩
      · obtain ⟨hb1, hb2⟩ := ihb p hp2
        exact ⟨by omega, hb2⟩
    · refine List.Pairwise.cons ?_ ihp
      intro b hb
      exact (ihb b hb).1

/-- Section-level line accounting, across the 2-line section gaps. -/
theorem lineSections_spec :
    ∀ (sections : SectionDict) (line : Nat),
      (∀ p ∈ (lineSections line sections).1,
          line ≤ p.1 ∧ p.1 + p.2.tags.length * 2 ≤ (lineSections line sections).2) ∧
      ((lineSections line sections).1).Pairwise
        (fun a b => a.1 + a.2.tags.length * 2 ≤ b.1) ∧
      line ≤ (lineSections line sections).2 := by
  intro sections
  induction sections with
  | nil =>
    intro line
    exact ⟨by simp [lineSections], by simp [lineSections], le_rfl⟩
  | cons sec rest ih =>
    intro line
    obtain ⟨name, recs⟩ := sec
    obtain ⟨hb1, hp1, hle1⟩ := lineRecs_spec recs line
    obtain ⟨hb2, hp2, hle2⟩ := ih ((lineRecs line recs).2 + 2)
    have hunfold : lineSections line ((name, recs) :: rest)
        = ((lineRecs line recs).1
            ++ (lineSections ((lineRecs line recs).2 + 2) rest).1,
           (lineSections ((lineRecs line recs).2 + 2) rest).2) := rfl
    rw [hunfold]
    dsimp only
    refine ⟨?_, ?_, by omega⟩
    · intro p hp
      rcases List.mem_append.mp hp with hp1m | hp2m
      · obtain ⟨ha, hb⟩ := hb1 p hp1m
        refine ⟨ha, ?_⟩
        have := (hb2 p) -- unused guard
        omega
      · obtain ⟨ha, hb⟩ := hb2 p hp2m
        exact ⟨by omega, hb⟩
    · refine List.pairwise_append.mpr ⟨hp1, hp2, ?_⟩
      intro a ha b hb
      obtain ⟨ha1, ha2⟩ := hb1 a ha
      obtain ⟨hb1m, _⟩ := hb2 b hb
      omega

/-- Inserting an element not smaller than everything in the accumulator
appends it at the end. -/
theorem insertByLine_all_le (x : Nat × Tags) :
    ∀ acc : List (Nat × Tags), (∀ y ∈ acc, y.1 ≤ x.1) →
      insertByLine x acc = acc ++ [x] := by
  intro acc
  induction acc with
  | nil => intro _; rfl
  | cons y ys ih =>
    intro h
    have hy : y.1 ≤ x.1 := h y (List.mem_cons_self y ys)
    rw [insertByLine, if_pos hy, ih (fun z hz => h z (List.mem_cons_of_mem y hz))]
    rfl

/-- Insertion-sorting an already sorted suffix onto a sorted accumulator is
the identity. -/
theorem foldl_insertByLine_sorted :
    ∀ (l acc : List (Nat × Tags)),
      (acc ++ l).Pairwise (fun a b => a.1 ≤ b.1) →
      l.foldl (fun acc x => insertByLine x acc) acc = acc ++ l := by
  intro l
  induction l with
  | nil => intro acc _; simp
  | cons x rest ih =>
    intro acc hp
    rw [List.foldl_cons]
    have hall : ∀ y ∈ acc, y.1 ≤ x.1 := by
      intro y hy
      exact (List.pairwise_append.mp hp).2.2 y hy x (List.mem_cons_self x rest)
    rw [insertByLine_all_le x acc hall]
    have hp2 : ((acc ++ [x]) ++ rest).Pairwise (fun a b => a.1 ≤ b.1) := by
      rw [List.append_assoc]
      exact hp
    rw [ih (acc ++ [x]) hp2, List.append_assoc]
    rfl

/-- Sorting a list already sorted by start line is the identity. -/
theorem sortByLine_sorted_id (l : List (Nat × Tags))
    (h : l.Pairwise (fun a b => a.1 ≤ b.1)) : sortByLine l = l := by
  unfold sortByLine
  simpa using foldl_insertByLine_sorted l [] (by simpa using h)

/-- The file-order pair list is separated (hence non-decreasing) in the
start lines. -/
theorem linePairs_pairwise (sections : SectionDict) :
    (linePairs sections).Pairwise
      (fun a b => a.1 + a.2.tags.length * 2 ≤ b.1) :=
  (lineSections_spec sections 1).2.1

/-- The sort inside `build_line_index` is the identity: the pairs are
already produced in ascending start-line order. -/
theorem build_line_index_eq (sections : SectionDict) :
    LineIndex.build_line_index sections = linePairs sections := by
  unfold LineIndex.build_line_index
  apply sortByLine_sorted_id
  exact (linePairs_pairwise sections).imp
    (fun hab => le_trans (Nat.le_add_right _ _) hab)

/-! ### C3: agreement of the two max line numbers -/

/-- The last produced pair of a non-empty record list, with the final line
it determines. -/
theorem lineRecs_last :
    ∀ (recs : List Tags) (t0 : Tags) (line : Nat),
      ∃ l0 s t, (lineRecs line (t0 :: recs)).1 = l0 ++ [(s, t)] ∧
        (lineRecs line (t0 :: recs)).2 = s + t.tags.length * 2 := by
  intro recs
  induction recs with
  | nil =>
    intro t0 line
    exact ⟨[], line, t0, rfl, rfl⟩
  | cons t1 rest ih =>
    intro t0 line
    obtain ⟨l0, s, t, h1, h2⟩ := ih t1 (line + t0.tags.length * 2)
    refine ⟨(line, t0) :: l0, s, t, ?_, h2⟩
    show (line, t0) :: (lineRecs (line + t0.tags.length * 2) (t1 :: rest)).1
      = ((line, t0) :: l0) ++ [(s, t)]
    rw [h1]
    rfl

/-- The last produced pair of a mapping whose final section is non-empty,
with the final line it determines (including the final section gap). -/
theorem lineSections_last :
    ∀ (pre : SectionDict) (name : String) (recs : List Tags) (line : Nat),
      recs ≠ [] →
      ∃ l0 s t, (lineSections line (pre ++ [(name, recs)])).1 = l0 ++ [(s, t)] ∧
        (lineSections line (pre ++ [(name, recs)])).2
          = s + t.tags.length * 2 + 2 := by
  intro pre
  induction pre with
  | nil =>
    intro name recs line hne
    cases recs with
    | nil => exact absurd rfl hne
    | cons t0 tl =>
      obtain ⟨l0, s, t, h1, h2⟩ := lineRecs_last tl t0 line
      refine ⟨l0, s, t, ?_, ?_⟩
      · show (lineRecs line (t0 :: tl)).1
            ++ (lineSections ((lineRecs line (t0 :: tl)).2 + 2) []).1
          = l0 ++ [(s, t)]
        rw [h1]
        simp [lineSections]
      · show (lineSections ((lineRecs line (t0 :: tl)).2 + 2) []).2
          = s + t.tags.length * 2 + 2
        show (lineRecs line (t0 :: tl)).2 + 2 = s + t.tags.length * 2 + 2
        omega
  | cons sec rest ih =>
    intro name recs line hne
    obtain ⟨sname, srecs⟩ := sec
    obtain ⟨l0, s, t, h1, h2⟩ := ih name recs ((lineRecs line srecs).2 + 2) hne
    refine ⟨(lineRecs line srecs).1 ++ l0, s, t, ?_, h2⟩
    show (lineRecs line srecs).1
        ++ (lineSections ((lineRecs line srecs).2 + 2) (rest ++ [(name, recs)])).1
      = ((lineRecs line srecs).1 ++ l0) ++ [(s, t)]
    rw [h1, List.append_assoc]

/-- C3 counterexample: on the empty mapping HandleIndex computes
max_line_number 1 - 3 = -2 while LineIndex reports 1. -/
theorem c3_counterexample :
    ¬((HandleIndex.build ([] : SectionDict)).max_line_number
        = (LineIndex.build ([] : SectionDict)).max_line_number) := by
  decide

/-- C3 (amended): for every SectionMapping whose last section contains at
least one record, the max_line_number computed by HandleIndex during its
build and the one computed by LineIndex from its sorted line index agree
(interior or leading empty sections are fine; trailing empty sections or a
recordless mapping make HandleIndex overshoot). -/
theorem c3_max_line_number (sections : SectionDict) (pre : SectionDict)
    (name : String) (recs : List Tags)
    (hs : sections = pre ++ [(name, recs)]) (hne : recs ≠ []) :
    (HandleIndex.build sections).max_line_number
      = (LineIndex.build sections).max_line_number := by
  subst hs
  obtain ⟨l0, s, t, h1, h2⟩ := lineSections_last pre name recs 1 hne
  have hmaxH : (HandleIndex.build (pre ++ [(name, recs)])).max_line_number
      = ((lineSections 1 (pre ++ [(name, recs)])).2 : Int) - 3 := by
    show ((handleFinalLine (pre ++ [(name, recs)]) : Nat) : Int) - 3 = _
    rw [handleFinalLine_eq]
  have hmaxL : (LineIndex.build (pre ++ [(name, recs)])).max_line_number
      = match (LineIndex.build_line_index (pre ++ [(name, recs)])).getLast? with
        | none => 1
        | some (last, e) => (last : Int) + (e.tags.length : Int) * 2 - 1 := rfl
  rw [hmaxH, hmaxL, build_line_index_eq]
  show _ = match (linePairs (pre ++ [(name, recs)])).getLast? with
    | none => (1 : Int)
    | some (last, e) => (last : Int) + (e.tags.length : Int) * 2 - 1
  rw [show linePairs (pre ++ [(name, recs)])
      = (lineSections 1 (pre ++ [(name, recs)])).1 from rfl, h1,
    List.getLast?_concat]
  rw [h2]
  push_cast
  ring

/-- C3 witness at the C1 mapping (last section ENTITIES is non-empty). -/
theorem c3_witness :
    (c1Sections = [("HEADER", [exRec 1 3])] ++ [("ENTITIES", [exRec 2 2, exRec 3 4])] ∧
      ([exRec 2 2, exRec 3 4] : List Tags) ≠ []) ∧
    (HandleIndex.build c1Sections).max_line_number
      = (LineIndex.build c1Sections).max_line_number :=
  ⟨⟨by decide, by decide⟩,
    c3_max_line_number c1Sections [("HEADER", [exRec 1 3])] "ENTITIES"
      [exRec 2 2, exRec 3 4] (by decide) (by decide)⟩

/-! ### C9: boundary behaviour of the two entity-at-line lookups -/

/-- The records of the file-order pair list, in order. -/
theorem linePairs_records (sections : SectionDict) :
    (linePairs sections).map (fun p => p.2) = allRecords sections := by
  rw [← handleEntries_pairs, List.map_map, ← handleEntries_tags]
  rfl

/-- A recordless mapping creates no entries. -/
theorem handleEntries_nil (sections : SectionDict)
    (h : allRecords sections = []) : handleEntries sections = [] := by
  have := handleEntries_tags sections
  rw [h] at this
  exact List.map_eq_nil_iff.mp this

/-- A recordless mapping produces an empty pair list. -/
theorem linePairs_nil (sections : SectionDict)
    (h : allRecords sections = []) : linePairs sections = [] := by
  have := linePairs_records sections
  rw [h] at this
  exact List.map_eq_nil_iff.mp this

/-- Every dict value is one of the created entries. -/
theorem values_subset (hi : HandleIndex) :
    ∀ v ∈ hi.values, v ∈ hi.entries := by
  intro v hv
  obtain ⟨p, _, hv2⟩ := List.mem_filterMap.mp hv
  obtain ⟨hlt, rfl⟩ := List.getElem?_eq_some.mp hv2
  exact hi.entries.getElem_mem hlt

/-- The head of the file-order pair list carries the minimal start line. -/
theorem linePairs_head_min (sections : SectionDict) (s0 : Nat) (e0 : Tags)
    (rest : List (Nat × Tags)) (h : linePairs sections = (s0, e0) :: rest) :
    ∀ p ∈ linePairs sections, s0 ≤ p.1 := by
  intro p hp
  have hpw := linePairs_pairwise sections
  rw [h] at hpw hp
  rcases List.mem_cons.mp hp with rfl | hp2
  · exact le_rfl
  · have := (List.pairwise_cons.mp hpw).1 p hp2
    omega

/-- C9: when the mapping has no records, both lookups return None for every
line number; and for every line number strictly below the first record's
start line, LineIndex.get_entity_at_line clamps to the first record while
HandleIndex.get_entity_at_line returns None. -/
theorem c9_boundary_asymmetry (sections : SectionDict) (n : Int) :
    (allRecords sections = [] →
      (LineIndex.build sections).get_entity_at_line n = none ∧
      (HandleIndex.build sections).get_entity_at_line n = none) ∧
    (∀ (s0 : Nat) (e0 : Tags) (rest : List (Nat × Tags)),
      (LineIndex.build sections).line_index = (s0, e0) :: rest →
      n < (s0 : Int) →
      (LineIndex.build sections).get_entity_at_line n = some e0 ∧
      (HandleIndex.build sections).get_entity_at_line n = none) := by
  have hline : (LineIndex.build sections).line_index = linePairs sections :=
    build_line_index_eq sections
  constructor
  · intro hnil
    constructor
    · show (match (LineIndex.build sections).line_index with
        | [] => none
        | (_, e0) :: _ =>
          some (lScan e0 (LineIndex.build sections).line_index n)) = none
      rw [hline, linePairs_nil sections hnil]
    · show hScan none (HandleIndex.build sections).values n = none
      have he : handleEntries sections = [] := handleEntries_nil sections hnil
      have hidx : (HandleIndex.build sections).index = [] := by
        show ((handleEntries sections).enum.map
            (fun p => (p.2.handle, p.1))).foldl
          (fun d p => dictUpdate p.1 p.2 d) [] = []
        rw [he]
        rfl
      have hes : (HandleIndex.build sections).values = [] := by
        show ((HandleIndex.build sections).index).filterMap
          (fun p => (HandleIndex.build sections).entries[p.2]?) = []
        rw [hidx]
        rfl
      rw [hes]
      rfl
  · intro s0 e0 rest h hn
    have hpairs : linePairs sections = (s0, e0) :: rest := by
      rw [← hline]; exact h
    constructor
    · show (match (LineIndex.build sections).line_index with
        | [] => none
        | (_, e0) :: _ =>
          some (lScan e0 (LineIndex.build sections).line_index n)) = some e0
      rw [h]
      show some (lScan e0 ((s0, e0) :: rest) n) = some e0
      rw [lScan, if_pos (by omega)]
    · show hScan none (HandleIndex.build sections).values n = none
      have hmin : ∀ v ∈ (HandleIndex.build sections).values, s0 ≤ v.line := by
        intro v hv
        have hve : v ∈ handleEntries sections :=
          values_subset (HandleIndex.build sections) v hv
        have hvp : (v.line, v.tags) ∈ linePairs sections := by
          rw [← handleEntries_pairs]
          exact List.mem_map_of_mem _ hve
        exact linePairs_head_min sections s0 e0 rest hpairs (v.line, v.tags) hvp
      cases hv : (HandleIndex.build sections).values with
      | nil => rfl
      | cons v vs =>
        have hvl : s0 ≤ v.line := hmin v (hv ▸ List.mem_cons_self v vs)
        show (if (v.line : Int) > n then none else hScan (some v.tags) vs n) = none
        rw [if_pos (by omega)]

/-- C9 witness: at line 0, below the first record's start line 3 of
`gapSections`, LineIndex clamps to the first record and HandleIndex returns
None. -/
theorem c9_witness :
    ((LineIndex.build gapSections).line_index = [(3, exRec 5 1)] ∧
      (0 : Int) < ((3 : Nat) : Int)) ∧
    ((LineIndex.build gapSections).get_entity_at_line 0 = some (exRec 5 1) ∧
      (HandleIndex.build gapSections).get_entity_at_line 0 = none) :=
  ⟨⟨by decide, by decide⟩,
    (c9_boundary_asymmetry gapSections 0).2 3 (exRec 5 1) [] (by decide)
      (by decide)⟩

/-! ### C4: strict monotonicity and round trip of the line index -/

/-- C4 counterexample: with zero-tag records two line index entries share
start line 1, so the start lines are not strictly increasing (and the round
trip fails for the first zero-tag record, which resolves to the second). -/
theorem c4_counterexample :
    ¬(((LineIndex.build zeroSections).line_index).Pairwise
        (fun a b => a.1 < b.1) ∧
      ∀ r ∈ allRecords zeroSections,
        (LineIndex.build zeroSections).get_entity_at_line
            ((LineIndex.build zeroSections).get_start_line_for_entity r)
          = some r) := by
  decide

/-- A scan over pairs that all start past the queried line keeps the
accumulator. -/
theorem lScan_big :
    ∀ (l : List (Nat × Tags)) (acc : Tags) (n : Int),
      (∀ b ∈ l, n < (b.1 : Int)) → lScan acc l n = acc := by
  intro l
  induction l with
  | nil => intro acc n _; rfl
  | cons p rest ih =>
    intro acc n hall
    obtain ⟨s0, e0⟩ := p
    have h0 : n < (s0 : Int) := hall (s0, e0) (List.mem_cons_self _ _)
    rw [lScan, if_pos (by omega)]

/-- On a strictly increasing pair list, scanning for a start line that is
present returns exactly the record stored at it. -/
theorem lScan_of_mem :
    ∀ (l : List (Nat × Tags)) (acc : Tags) (s : Nat) (r : Tags),
      (s, r) ∈ l → l.Pairwise (fun a b => a.1 < b.1) →
      lScan acc l (s : Int) = r := by
  intro l
  induction l with
  | nil => intro acc s r hmem _; simp at hmem
  | cons p rest ih =>
    intro acc s r hmem hpw
    obtain ⟨s0, e0⟩ := p
    rcases List.mem_cons.mp hmem with heq | hmem2
    · obtain ⟨rfl, rfl⟩ : s0 = s ∧ e0 = r := by
        constructor
        · exact (congrArg Prod.fst heq).symm
        · exact (congrArg Prod.snd heq).symm
      rw [lScan, if_neg (by omega)]
      apply lScan_big
      intro b hb
      have := (List.pairwise_cons.mp hpw).1 b hb
      omega
    · have hs0 : s0 < s := (List.pairwise_cons.mp hpw).1 (s, r) hmem2
      rw [lScan, if_neg (by omega)]
      exact ih e0 s r hmem2 (List.pairwise_cons.mp hpw).2

/-- C4 (amended): for every SectionMapping whose records all have at least
one tag (zero-tag records collapse consecutive start lines) and whose
object identities are consistent (equal ids mean the same record), the
sorted line index has strictly increasing start lines, and
`get_entity_at_line (get_start_line_for_entity r)` returns r for every
indexed record r. -/
theorem c4_line_index_roundtrip (sections : SectionDict)
    (hne : ∀ r ∈ allRecords sections, r.tags ≠ [])
    (hrid : ∀ r ∈ allRecords sections, ∀ q ∈ allRecords sections,
      r.rid = q.rid → r = q) :
    ((LineIndex.build sections).line_index).Pairwise (fun a b => a.1 < b.1) ∧
    ∀ r ∈ allRecords sections,
      (LineIndex.build sections).get_entity_at_line
          ((LineIndex.build sections).get_start_line_for_entity r)
        = some r := by
  have hline : (LineIndex.build sections).line_index = linePairs sections :=
    build_line_index_eq sections
  have hpwlt : (linePairs sections).Pairwise (fun a b => a.1 < b.1) := by
    refine List.Pairwise.imp_of_mem ?_ (linePairs_pairwise sections)
    intro a b ha _ hab
    have ha2 : a.2 ∈ allRecords sections := by
      rw [← linePairs_records]
      exact List.mem_map_of_mem _ ha
    have hlen : a.2.tags.length ≠ 0 :=
      fun h0 => hne a.2 ha2 (List.length_eq_zero.mp h0)
    omega
  constructor
  · rw [hline]; exact hpwlt
  · intro r hr
    obtain ⟨p, hp, hpr⟩ : ∃ p ∈ linePairs sections, p.2 = r := by
      have : r ∈ (linePairs sections).map (fun p => p.2) := by
        rw [linePairs_records]; exact hr
      exact List.mem_map.mp this
    have hkey : (r.rid, p)
        ∈ (linePairs sections).map (fun q => (q.2.rid, q)) := by
      rw [← hpr]
      simpa using List.mem_map_of_mem (fun q => (q.2.rid, q)) hp
    have heq : (LineIndex.build sections).entity_index
        = ((linePairs sections).map (fun q => (q.2.rid, q))).foldl
          (fun d q => dictUpdate q.1 q.2 d) [] := rfl
    cases hdg : dictGet r.rid (LineIndex.build sections).entity_index with
    | none =>
      exfalso
      have hdg2 : dictGet r.rid
          (((linePairs sections).map (fun q => (q.2.rid, q))).foldl
            (fun d q => dictUpdate q.1 q.2 d) []) = none := by
        rw [← heq]; exact hdg
      have hsome := dictGet_foldl_isSome
        ((linePairs sections).map (fun q => (q.2.rid, q))) [] r.rid
        (Or.inl (List.mem_map_of_mem Prod.fst hkey))
      rw [hdg2] at hsome
      exact absurd hsome (by simp)
    | some sq =>
      obtain ⟨s, q⟩ := sq
      have hdg2 : dictGet r.rid
          (((linePairs sections).map (fun q => (q.2.rid, q))).foldl
            (fun d q => dictUpdate q.1 q.2 d) []) = some (s, q) := by
        rw [← heq]; exact hdg
      have hmem : (r.rid, (s, q))
          ∈ (linePairs sections).map (fun q => (q.2.rid, q)) := by
        have hor := dictGet_foldl_mem
          ((linePairs sections).map (fun q => (q.2.rid, q))) [] r.rid (s, q) hdg2
        rcases hor with h | h
        · exact h
        · exact absurd h (by simp [dictGet])
      obtain ⟨p2, hp2, hp2e⟩ := List.mem_map.mp hmem
      have hp2rid : p2.2.rid = r.rid := congrArg Prod.fst hp2e
      have hp2val : p2 = (s, q) := congrArg Prod.snd hp2e
      have hq : q = r := by
        have hqrec : q ∈ allRecords sections := by
          rw [← linePairs_records]
          have : (s, q) ∈ linePairs sections := hp2val ▸ hp2
          exact List.mem_map_of_mem _ this
        have hqr : q.rid = r.rid := by
          rw [← hp2rid, hp2val]
        exact hrid q hqrec r hr hqr
      have hsr : (s, r) ∈ linePairs sections := by
        have : (s, q) ∈ linePairs sections := hp2val ▸ hp2
        rwa [hq] at this
      have hstart : (LineIndex.build sections).get_start_line_for_entity r = s := by
        show (match dictGet r.rid (LineIndex.build sections).entity_index with
          | some p => p.1
          | none => 0) = s
        rw [hdg]
      rw [hstart]
      show (match (LineIndex.build sections).line_index with
        | [] => none
        | (_, e0) :: _ =>
          some (lScan e0 (LineIndex.build sections).line_index (s : Int)))
        = some r
      rw [hline]
      cases hlp : linePairs sections with
      | nil => rw [hlp] at hsr; simp at hsr
      | cons p0 lrest =>
        obtain ⟨s0, e0⟩ := p0
        show some (lScan e0 ((s0, e0) :: lrest) (s : Int)) = some r
        rw [lScan_of_mem ((s0, e0) :: lrest) e0 s r (hlp ▸ hsr) (hlp ▸ hpwlt)]

/-- C4 witness at the C1 mapping (all records non-empty, distinct ids). -/
theorem c4_witness :
    ((∀ r ∈ allRecords c1Sections, r.tags ≠ []) ∧
      (∀ r ∈ allRecords c1Sections, ∀ q ∈ allRecords c1Sections,
        r.rid = q.rid → r = q)) ∧
    (((LineIndex.build c1Sections).line_index).Pairwise
        (fun a b => a.1 < b.1) ∧
      ∀ r ∈ allRecords c1Sections,
        (LineIndex.build c1Sections).get_entity_at_line
            ((LineIndex.build c1Sections).get_start_line_for_entity r)
          = some r) :=
  ⟨⟨by decide, by decide⟩,
    c4_line_index_roundtrip c1Sections (by decide) (by decide)⟩

/-! ### C5: linked-list navigation -/

/-- Each created entry's handle is the uppercased real handle of its record,
or an uppercased synthetic handle when extraction failed (record level). -/
theorem handleBuildRecs_handle_spec :
    ∀ (recs : List Tags) (line dummy : Nat) (e : IndexEntry),
      e ∈ (handleBuildRecs line dummy recs).1 →
      (∃ h0, e.tags.get_handle = some h0 ∧ e.handle = strUpper h0) ∨
      (e.tags.get_handle = none ∧
        ∃ d, e.handle = strUpper ("*" ++ hexUpper d)) := by
  intro recs
  induction recs with
  | nil => intro line dummy e he; simp [handleBuildRecs] at he
  | cons t rest ih =>
    intro line dummy e he
    cases ht : t.get_handle with
    | some h0 =>
      simp only [handleBuildRecs, ht] at he
      rcases List.mem_cons.mp he with rfl | he2
      · exact Or.inl ⟨h0, ht, rfl⟩
      · exact ih _ _ e he2
    | none =>
      simp only [handleBuildRecs, ht] at he
      rcases List.mem_cons.mp he with rfl | he2
      · exact Or.inr ⟨ht, dummy, rfl⟩
      · exact ih _ _ e he2

/-- Entry handle characterization, section level. -/
theorem handleEntries_handle_spec (sections : SectionDict) :
    ∀ e ∈ handleEntries sections,
      (∃ h0, e.tags.get_handle = some h0 ∧ e.handle = strUpper h0) ∨
      (e.tags.get_handle = none ∧
        ∃ d, e.handle = strUpper ("*" ++ hexUpper d)) := by
  suffices hgen : ∀ (secs : SectionDict) (line dummy : Nat) (e : IndexEntry),
      e ∈ (handleBuildSections line dummy secs).1 →
      (∃ h0, e.tags.get_handle = some h0 ∧ e.handle = strUpper h0) ∨
      (e.tags.get_handle = none ∧
        ∃ d, e.handle = strUpper ("*" ++ hexUpper d)) by
    intro e he
    exact hgen sections 1 1 e he
  intro secs
  induction secs with
  | nil => intro line dummy e he; simp [handleBuildSections] at he
  | cons sec rest ih =>
    intro line dummy e he
    obtain ⟨name, recs⟩ := sec
    simp only [handleBuildSections] at he
    rcases List.mem_append.mp he with he1 | he2
    · exact handleBuildRecs_handle_spec recs line dummy e he1
    · exact ih _ _ e he2

/-- `find?` returns the element at the first position satisfying the
predicate. -/
theorem find?_first {α : Type} :
    ∀ (l : List α) (p : α → Bool) (i : Nat) (h : i < l.length),
      p (l[i]) = true →
      (∀ (j : Nat) (hj : j < l.length), j < i → p (l[j]) = false) →
      l.find? p = some l[i] := by
  intro l p
  induction l with
  | nil => intro i h _ _; simp at h
  | cons x rest ih =>
    intro i h hp hmin
    cases i with
    | zero =>
      simp only [List.getElem_cons_zero] at hp ⊢
      exact List.find?_cons_of_pos _ hp
    | succ j =>
      have hx : p x = false := by
        have h0 := hmin 0 (by omega) (by omega)
        simpa using h0
      rw [List.find?_cons_of_neg _ (by simp [hx])]
      simp only [List.getElem_cons_succ] at hp ⊢
      have hj : j < rest.length := by simpa using h
      refine ih j hj hp ?_
      intro k hk hki
      have hk2 := hmin (k + 1) (by simpa using Nat.succ_lt_succ hk) (by omega)
      simpa using hk2

/-- Under pairwise distinct first-tag identities, distinct entries have
distinct first-tag identities. -/
theorem entries_firstTid_inj (sections : SectionDict)
    (htid : ((allRecords sections).map firstTid).Nodup) :
    ∀ (i j : Nat) (hi : i < (handleEntries sections).length)
      (hj : j < (handleEntries sections).length),
      firstTid ((handleEntries sections)[i]).tags
        = firstTid ((handleEntries sections)[j]).tags → i = j := by
  intro i j hi hj hEq
  have hmap : (handleEntries sections).map (fun e => firstTid e.tags)
      = (allRecords sections).map firstTid := by
    rw [← handleEntries_tags, List.map_map]
    rfl
  have hnd2 : ((handleEntries sections).map (fun e => firstTid e.tags)).Nodup := by
    rw [hmap]; exact htid
  have hi2 : i < ((handleEntries sections).map (fun e => firstTid e.tags)).length := by
    simpa using hi
  have hj2 : j < ((handleEntries sections).map (fun e => firstTid e.tags)).length := by
    simpa using hj
  apply hnd2.getElem_inj_iff.mp
  rw [List.getElem_map, List.getElem_map]
  exact hEq
  exact hj2
  exact hi2

/-- Unfolding `next_entity` once the handle and dict position are known. -/
theorem next_entity_resolved (hi : HandleIndex) (r : Tags) (hs : String)
    (i : Nat) (h1 : hi.get_handle r = some hs)
    (h2 : dictGet hs hi.index = some i) :
    hi.next_entity r
      = match hi.entries[i + 1]? with
        | some nxt => some nxt.tags
        | none => some r := by
  unfold HandleIndex.next_entity
  rw [h1]
  dsimp only
  rw [h2]

/-- Unfolding `previous_entity` once the handle and dict position are
known. -/
theorem previous_entity_resolved (hi : HandleIndex) (r : Tags) (hs : String)
    (i : Nat) (h1 : hi.get_handle r = some hs)
    (h2 : dictGet hs hi.index = some i) :
    hi.previous_entity r
      = if i = 0 then some r
        else match hi.entries[i - 1]? with
          | some prv => some prv.tags
          | none => some r := by
  unfold HandleIndex.previous_entity
  rw [h1]
  dsimp only
  rw [h2]

/-- Handle resolution on the built index: under the well-formedness
hypotheses, `get_handle` returns the assigned handle of each indexed
record, and that handle resolves in the dict to the record's own creation
position. -/
theorem c5_resolve (sections : SectionDict)
    (hne : ∀ r ∈ allRecords sections, r.tags ≠ [])
    (hup : ∀ r ∈ allRecords sections, (r.get_handle).map strUpper = r.get_handle)
    (hnd : ((handleEntries sections).map (fun e => e.handle)).Nodup)
    (htid : ((allRecords sections).map firstTid).Nodup) :
    ∀ (i : Nat) (h : i < (handleEntries sections).length),
      (HandleIndex.build sections).get_handle ((handleEntries sections)[i]).tags
          = some ((handleEntries sections)[i]).handle ∧
        dictGet ((handleEntries sections)[i]).handle
          (HandleIndex.build sections).index = some i := by
  intro i h
  have hdict : dictGet ((handleEntries sections)[i]).handle
      (HandleIndex.build sections).index = some i := by
    rw [build_index_eq sections hnd]
    have hb : i < ((handleEntries sections).enum.map
        (fun p => (p.2.handle, p.1))).length := by simpa using h
    have hkeysnd : (((handleEntries sections).enum.map
        (fun p => (p.2.handle, p.1))).map Prod.fst).Nodup := by
      rw [show (handleEntries sections).enum
          = (handleEntries sections).enumFrom 0 from rfl,
        pairs_keys (handleEntries sections) 0]
      exact hnd
    have hgl := dictGet_nodup_getElem
      ((handleEntries sections).enum.map (fun p => (p.2.handle, p.1))) i hb hkeysnd
    have hsome := List.getElem?_eq_getElem hb
    rw [pairs_getElem (handleEntries sections) i h] at hsome
    have hpe : ((handleEntries sections).enum.map (fun p => (p.2.handle, p.1)))[i]
        = (((handleEntries sections)[i]).handle, i) := by
      injection hsome with hx
      exact hx.symm
    rw [hpe] at hgl
    exact hgl
  have hmem : (handleEntries sections)[i] ∈ handleEntries sections :=
    (handleEntries sections).getElem_mem h
  have hmemtags : ((handleEntries sections)[i]).tags ∈ allRecords sections := by
    rw [← handleEntries_tags]
    exact List.mem_map_of_mem _ hmem
  have hnonempty : ((handleEntries sections)[i]).tags.tags ≠ [] := hne _ hmemtags
  refine ⟨?_, hdict⟩
  show (if ((handleEntries sections)[i]).tags.tags.length = 0 then none
    else
      match Tags.get_handle ((handleEntries sections)[i]).tags with
      | some h0 => some h0
      | none =>
        ((HandleIndex.build sections).items.find? (fun p =>
          decide (0 < p.2.tags.tags.length) &&
            decide (firstTid p.2.tags
              = firstTid ((handleEntries sections)[i]).tags))).map (fun p => p.1))
    = some ((handleEntries sections)[i]).handle
  rw [if_neg (by simpa [List.length_eq_zero] using hnonempty)]
  cases hgh : Tags.get_handle ((handleEntries sections)[i]).tags with
  | some h0 =>
    dsimp only
    rcases handleEntries_handle_spec sections _ hmem with ⟨h1, hgh2, hh⟩ | ⟨hgh2, _⟩
    · rw [hgh] at hgh2
      injection hgh2 with h01
      have hupv := hup _ hmemtags
      rw [hgh] at hupv
      have hfix : strUpper h0 = h0 := by
        simpa using hupv
      rw [hh, ← h01, hfix]
    · rw [hgh2] at hgh
      exact absurd hgh (by simp)
  | none =>
    dsimp only
    rw [build_items_eq sections hnd]
    have hbm : i < ((handleEntries sections).map (fun e => (e.handle, e))).length := by
      simpa using h
    have hpos : 0 < ((handleEntries sections)[i]).tags.tags.length :=
      List.length_pos.mpr hnonempty
    have hfind := find?_first
      ((handleEntries sections).map (fun e => (e.handle, e)))
      (fun p =>
        decide (0 < p.2.tags.tags.length) &&
          decide (firstTid p.2.tags
            = firstTid ((handleEntries sections)[i]).tags))
      i hbm ?_ ?_
    · rw [hfind, List.getElem_map]
      rfl
    · rw [List.getElem_map]
      simp [hpos]
    · intro j hj hji
      rw [List.getElem_map]
      have hj2 : j < (handleEntries sections).length := by simpa using hj
      have hne2 : firstTid ((handleEntries sections)[j]).tags
          ≠ firstTid ((handleEntries sections)[i]).tags := by
        intro hEq
        exact absurd (entries_firstTid_inj sections htid j i hj2 h hEq) (by omega)
      simp [hne2]

/-- C5 (amended): over a mapping whose records are all non-empty, whose
extracted handles are already uppercase, whose assigned handles are pairwise
distinct and whose first-tag object identities are pairwise distinct: for
every indexed record, next_entity at the last record and previous_entity at
the first record return the record unchanged, and
next_entity(previous_entity(r)) returns r for interior records. -/
theorem c5_navigation (sections : SectionDict)
    (hne : ∀ r ∈ allRecords sections, r.tags ≠ [])
    (hup : ∀ r ∈ allRecords sections, (r.get_handle).map strUpper = r.get_handle)
    (hnd : ((handleEntries sections).map (fun e => e.handle)).Nodup)
    (htid : ((allRecords sections).map firstTid).Nodup) :
    ∀ (i : Nat) (h : i < (handleEntries sections).length),
      (i + 1 = (handleEntries sections).length →
        (HandleIndex.build sections).next_entity
            (((handleEntries sections)[i]).tags)
          = some (((handleEntries sections)[i]).tags)) ∧
      (i = 0 →
        (HandleIndex.build sections).previous_entity
            (((handleEntries sections)[i]).tags)
          = some (((handleEntries sections)[i]).tags)) ∧
      (0 < i → i + 1 < (handleEntries sections).length →
        ((HandleIndex.build sections).previous_entity
            (((handleEntries sections)[i]).tags)).bind
              ((HandleIndex.build sections).next_entity)
          = some (((handleEntries sections)[i]).tags)) := by
  intro i h
  obtain ⟨hgh, hdg⟩ := c5_resolve sections hne hup hnd htid i h
  have hent : (HandleIndex.build sections).entries = handleEntries sections := rfl
  refine ⟨?_, ?_, ?_⟩
  · intro hlast
    rw [next_entity_resolved _ _ _ i hgh hdg, hent,
      List.getElem?_eq_none (by omega)]
  · intro h0
    rw [previous_entity_resolved _ _ _ i hgh hdg, if_pos h0]
  · intro hpos hlt
    have hbm : i - 1 < (handleEntries sections).length := by omega
    rw [previous_entity_resolved _ _ _ i hgh hdg, if_neg (by omega), hent,
      List.getElem?_eq_getElem hbm]
    show (HandleIndex.build sections).next_entity
        (((handleEntries sections)[i - 1]).tags)
      = some (((handleEntries sections)[i]).tags)
    obtain ⟨hgh2, hdg2⟩ := c5_resolve sections hne hup hnd htid (i - 1) hbm
    rw [next_entity_resolved _ _ _ (i - 1) hgh2 hdg2, hent,
      show i - 1 + 1 = i from by omega, List.getElem?_eq_getElem h]

/-- C5 counterexample: with a duplicated handle "A", next_entity follows the
overwritten dict entry: next_entity(previous_entity(r2)) returns r3, not the
interior record r2 itself. -/
theorem c5_counterexample :
    ¬(((HandleIndex.build c5Sections).previous_entity c5r2).bind
        ((HandleIndex.build c5Sections).next_entity) = some c5r2) := by
  decide

/-- C5 witness at the interior record of a three-record mapping with
distinct uppercase handles. -/
theorem c5_witness :
    ((∀ r ∈ allRecords c5GoodSections, r.tags ≠ []) ∧
      (∀ r ∈ allRecords c5GoodSections,
        (r.get_handle).map strUpper = r.get_handle) ∧
      ((handleEntries c5GoodSections).map (fun e => e.handle)).Nodup ∧
      ((allRecords c5GoodSections).map firstTid).Nodup ∧
      1 < (handleEntries c5GoodSections).length) ∧
    ((1 + 1 = (handleEntries c5GoodSections).length →
        (HandleIndex.build c5GoodSections).next_entity
            (((handleEntries c5GoodSections).get ⟨1, by decide⟩).tags)
          = some (((handleEntries c5GoodSections).get ⟨1, by decide⟩).tags)) ∧
      (1 = 0 →
        (HandleIndex.build c5GoodSections).previous_entity
            (((handleEntries c5GoodSections).get ⟨1, by decide⟩).tags)
          = some (((handleEntries c5GoodSections).get ⟨1, by decide⟩).tags)) ∧
      (0 < 1 → 1 + 1 < (handleEntries c5GoodSections).length →
        ((HandleIndex.build c5GoodSections).previous_entity
            (((handleEntries c5GoodSections).get ⟨1, by decide⟩).tags)).bind
              ((HandleIndex.build c5GoodSections).next_entity)
          = some (((handleEntries c5GoodSections).get ⟨1, by decide⟩).tags))) :=
  ⟨⟨by decide, by decide, by decide, by decide, by decide⟩,
    c5_navigation c5GoodSections (by decide) (by decide) (by decide)
      (by decide) 1 (by decide)⟩
